import Mathlib

/-!
Verification development for the win-can-utils CAN tooling.

This file gives a shallow embedding, in Lean, of the pure computational
core of the repository:

* the `CanFrame` value type (external `crosscan` crate, modelled from the
  specification's data model);
* the gs_usb RX host-frame parser (`src/drivers/gs_usb/frames.rs`);
* the gs_usb bit-timing solver (`src/drivers/gs_usb/bit_timing.rs`);
* the gs_usb 32→64-bit timestamp extension (`src/drivers/gs_usb/frames.rs`);
* the SLCAN line parser, line splitter and TX encoder (`src/slcan.rs`);
* the `open_channel` guards of both drivers, and the IPC forwarding
  stages of `canserver.rs`.

Machine integers are modelled as `Nat`, with an explicit `% 2^w` at every
point where the Rust code can wrap.  Fallible Rust operations are modelled
with `Option`/`Except`; a Rust panic (out-of-bounds slice index) is
modelled as a distinguished result so that panics are visible as such.
Rust `f64` arithmetic in the bit-timing solver is modelled by exact
rational arithmetic (`ℚ`).
-/

/-! ### The CanFrame value type

Modelled from the spec: the `crosscan` crate (external to this repository)
provides `CanFrame`; the spec's data model fixes its fields — an 11- or
29-bit id, `extended`/`rtr`/`error` flags, a declared length code `dlc`
(0–15, values above 8 mapping to CAN-FD lengths 12,16,20,24,32,48,64),
0–64 data bytes consistent with `dlc`, and an optional 64-bit timestamp —
and states that constructors reject invalid length/id combinations. -/
structure CanFrame where
  id : ℕ
  extended : Bool
  rtr : Bool
  error : Bool
  dlc : ℕ
  data : List ℕ
  timestamp : Option ℕ
  deriving DecidableEq, Repr

/-- Data-length → DLC code (inverse of `dlc_to_len`); `none` for lengths
that no classical or CAN-FD frame can carry. -/
def lenToDlc (n : ℕ) : Option ℕ :=
  if n ≤ 8 then some n
  else if n = 12 then some 9
  else if n = 16 then some 10
  else if n = 20 then some 11
  else if n = 24 then some 12
  else if n = 32 then some 13
  else if n = 48 then some 14
  else if n = 64 then some 15
  else none

/-- Modelled from the spec: `CanFrame::new` — a standard (11-bit id) data
frame; rejects ids above 0x7FF and data lengths that are not valid
CAN(-FD) lengths. -/
def CanFrame.new (id : ℕ) (data : List ℕ) : Option CanFrame :=
  match lenToDlc data.length with
  | none => none
  | some d =>
    if id ≤ 0x7FF then
      some { id := id, extended := false, rtr := false, error := false,
             dlc := d, data := data, timestamp := none }
    else none

/-- Modelled from the spec: `CanFrame::new_eff` — an extended (29-bit id)
data frame. -/
def CanFrame.new_eff (id : ℕ) (data : List ℕ) : Option CanFrame :=
  match lenToDlc data.length with
  | none => none
  | some d =>
    if id ≤ 0x1FFFFFFF then
      some { id := id, extended := true, rtr := false, error := false,
             dlc := d, data := data, timestamp := none }
    else none

/-- Modelled from the spec: `CanFrame::new_remote` — a classical remote
(RTR) frame with a declared length but no data bytes. -/
def CanFrame.new_remote (id : ℕ) (len : ℕ) (ext : Bool) : Option CanFrame :=
  if len ≤ 8 ∧ id ≤ (if ext then 0x1FFFFFFF else 0x7FF) then
    some { id := id, extended := ext, rtr := true, error := false,
           dlc := len, data := [], timestamp := none }
  else none

/-- Modelled from the spec: `CanFrame::new_error` — an error frame
carrying a 29-bit error class id. -/
def CanFrame.new_error (id : ℕ) : Option CanFrame :=
  if id ≤ 0x1FFFFFFF then
    some { id := id, extended := false, rtr := false, error := true,
           dlc := 0, data := [], timestamp := none }
  else none

/-- `CanFrame::set_timestamp`. -/
def CanFrame.set_timestamp (f : CanFrame) (ts : Option ℕ) : CanFrame :=
  { f with timestamp := ts }

/-! ### gs_usb wire constants (`src/drivers/gs_usb/constants.rs`) -/

def GS_HEADER_LEN : ℕ := 12
def GS_CAN_ECHO_ID_UNUSED : ℕ := 0xFFFFFFFF
def CAN_EFF_FLAG : ℕ := 0x80000000
def CAN_RTR_FLAG : ℕ := 0x40000000
def CAN_ERR_FLAG : ℕ := 0x20000000
def CAN_SFF_MASK : ℕ := 0x7FF
def CAN_EFF_MASK : ℕ := 0x1FFFFFFF
def CAN_ERR_MASK : ℕ := 0x1FFFFFFF

/-! ### gs_usb RX frame parsing (`src/drivers/gs_usb/frames.rs`) -/

/-- `dlc_to_len` from `frames.rs`. -/
def dlc_to_len (dlc : ℕ) : ℕ :=
  if dlc ≤ 8 then dlc
  else if dlc = 9 then 12
  else if dlc = 10 then 16
  else if dlc = 11 then 20
  else if dlc = 12 then 24
  else if dlc = 13 then 32
  else if dlc = 14 then 48
  else if dlc = 15 then 64
  else 0

/-- `roundup8` from `frames.rs`: `(x + 7) & !7`. -/
def roundup8 (x : ℕ) : ℕ := (x + 7) / 8 * 8

/-- `align_up` from `frames.rs`. -/
def align_up (x m : ℕ) : ℕ := if m = 0 then x else (x + (m - 1)) / m * m

/-- Little-endian u32 read of four bytes. -/
def le32 (b0 b1 b2 b3 : ℕ) : ℕ := b0 + 256 * b1 + 65536 * b2 + 16777216 * b3

/-- Read 4 bytes little-endian starting at offset `i` (caller guarantees
the bytes exist; missing bytes read as zero, matching no reachable path). -/
def le32At (bytes : List ℕ) (i : ℕ) : ℕ :=
  le32 (bytes.getD i 0) (bytes.getD (i+1) 0) (bytes.getD (i+2) 0) (bytes.getD (i+3) 0)

/-- `plausible_header` from `frames.rs`. -/
def plausible_header (bytes : List ℕ) (expected_chan : ℕ) : Bool :=
  if bytes.length < GS_HEADER_LEN then false
  else
    let dlc := bytes.getD 8 0
    let chan := bytes.getD 9 0
    if 15 < dlc then false
    else if chan ≠ expected_chan then false
    else true

/-- Result of one `parse_host_frame_at` attempt.  `incomplete` is the Rust
`None` return (wait for more bytes); `ok emitted consumed` is
`Some((emitted, consumed))`; `panic` marks the Rust out-of-bounds slice
`&bytes[12..12+data_len]`, reachable when the header is present but the
payload area is not. -/
inductive GsParseResult where
  | panic
  | incomplete
  | ok (emitted : Option CanFrame) (consumed : ℕ)
  deriving DecidableEq, Repr

/-- One step of the 32→64-bit timestamp extension performed by
`parse_host_frame_at` (`frames.rs`): `prev32 = last & 0xFFFFFFFF`,
`upper = last & !0xFFFFFFFF`; when `ts32 < prev32` the upper word is
advanced by `1 << 32` (wrapping `u64` addition); the result is
`upper | ts32`.  An unset `last` yields `ts32` itself. -/
def ts64Step (last : Option ℕ) (ts32 : ℕ) : ℕ :=
  match last with
  | some prev =>
    let prev32 := prev % 2 ^ 32
    let base64 := prev - prev32
    let base64' := if ts32 < prev32 then (base64 + 2 ^ 32) % 2 ^ 64 else base64
    base64' ||| ts32
  | none => ts32

/-- `parse_host_frame_at` from `src/drivers/gs_usb/frames.rs`.  Returns the
parse result together with the updated `last_ts64` state (the Rust function
mutates `last_ts64` through an `&mut` argument). -/
def parse_host_frame_at (bytes : List ℕ) (channel_index : ℕ)
    (timestamp_enabled : Bool) (last_ts64 : Option ℕ)
    (out_wmax : ℕ) (pad_pkts_enabled : Bool) :
    GsParseResult × Option ℕ :=
  if bytes.length < GS_HEADER_LEN then (.incomplete, last_ts64)
  else
    let echo_id := le32At bytes 0
    let raw_id := le32At bytes 4
    let dlc := bytes.getD 8 0
    let chan := bytes.getD 9 0
    let data_len := dlc_to_len dlc
    if 15 < dlc then (.ok none 1, last_ts64)
    else
      let aligned_payload := if data_len ≤ 8 then 8 else roundup8 data_len
      let base0 := GS_HEADER_LEN + aligned_payload
      -- DLC=0 quirk: 12-byte header + 8 bytes of padding
      if data_len = 0 ∧ bytes.length < 20 then (.incomplete, last_ts64)
      else
        let base := if data_len = 0 then 20 else base0
        let ts_off := base
        if timestamp_enabled ∧ bytes.length < base + 4 then (.incomplete, last_ts64)
        else
          let consumed0 := if timestamp_enabled then base + 4 else base
          if pad_pkts_enabled ∧ 0 < out_wmax ∧
              bytes.length < align_up consumed0 out_wmax then
            (.incomplete, last_ts64)
          else
            let consumed := if pad_pkts_enabled ∧ 0 < out_wmax then
                align_up consumed0 out_wmax
              else consumed0
            if ¬ plausible_header bytes channel_index then
              (.ok none 1, last_ts64)
            else if echo_id ≠ GS_CAN_ECHO_ID_UNUSED ∨ chan ≠ channel_index then
              (.ok none consumed, last_ts64)
            else if bytes.length < GS_HEADER_LEN + data_len then
              -- Rust: `&bytes[12..12+data_len]` panics (index out of range)
              (.panic, last_ts64)
            else
              let data := (bytes.drop GS_HEADER_LEN).take data_len
              let mkFrame : Option CanFrame :=
                if CAN_ERR_FLAG ≤ raw_id % 0x40000000 then
                  -- (raw_id & CAN_ERR_FLAG) != 0
                  CanFrame.new_error (raw_id % 0x20000000)
                else if CAN_RTR_FLAG ≤ raw_id % 0x80000000 then
                  CanFrame.new_remote
                    (if CAN_EFF_FLAG ≤ raw_id then raw_id % 0x20000000
                     else raw_id % 0x800)
                    (min dlc 8) (decide (CAN_EFF_FLAG ≤ raw_id))
                else if CAN_EFF_FLAG ≤ raw_id then
                  CanFrame.new_eff (raw_id % 0x20000000) data
                else
                  CanFrame.new (raw_id % 0x800) data
              match mkFrame with
              | none => (.incomplete, last_ts64)   -- `.ok()?` returns None
              | some frame =>
                if timestamp_enabled then
                  let ts32 := le32At bytes ts_off
                  let ts64 := ts64Step last_ts64 ts32
                  (.ok (some (frame.set_timestamp (some ts64))) consumed, some ts64)
                else
                  (.ok (some frame) consumed, last_ts64)

/-- The 15-byte RX accumulator of spec scenario S2: echo `0xFFFFFFFF`,
id `0x123`, dlc 3, chan 0, then the three data bytes `DE AD BE`. -/
def s2Bytes : List ℕ :=
  [0xFF, 0xFF, 0xFF, 0xFF, 0x23, 0x01, 0x00, 0x00, 0x03, 0x00, 0x00, 0x00,
   0xDE, 0xAD, 0xBE]

/-- The frame that S2 expects: standard id 0x123, data `DE AD BE`. -/
def s2Frame : CanFrame :=
  { id := 0x123, extended := false, rtr := false, error := false,
    dlc := 3, data := [0xDE, 0xAD, 0xBE], timestamp := none }

/-! ### gs_usb bit-timing solver (`src/drivers/gs_usb/bit_timing.rs`)

The Rust solver computes `actual_bitrate`, `rate_error`, `sample_point`,
`sample_error` and `score` in `f64`; the embedding uses exact rational
arithmetic.  `TARGET_SAMPLE_POINT = 0.875` (`constants.rs`).  All the
rationals that occur are nonnegative, and are represented as explicit
numerator/denominator pairs of naturals (`fracQ` gives their value in ℚ):

* `rate_error = |fclk/(brp·total) − bitrate| / bitrate
             = dist fclk (bitrate·brp·total) / (bitrate·brp·total)`;
* `sample_error = |(1+tseg1)/total − 7/8| = dist (8·(1+tseg1)) (7·total) / (8·total)`;
* `score = 10·rate_error + sample_error`, by fraction addition over the
  common denominator;
* comparisons are by cross-multiplication (denominators are positive in
  every reachable use).
-/

structure GsBtConst where
  feature : ℕ
  fclk_can : ℕ
  tseg1_min : ℕ
  tseg1_max : ℕ
  tseg2_min : ℕ
  tseg2_max : ℕ
  sjw_max : ℕ
  brp_min : ℕ
  brp_max : ℕ
  brp_inc : ℕ
  deriving DecidableEq, Repr

structure GsDeviceBitTiming where
  prop_seg : ℕ
  phase_seg1 : ℕ
  phase_seg2 : ℕ
  sjw : ℕ
  brp : ℕ
  deriving DecidableEq, Repr

/-- The inclusive range `a..=b` as a list. -/
def rangeIncl (a b : ℕ) : List ℕ := List.range' a (b + 1 - a)

/-- The candidate grid iterated by the three nested `for` loops of
`calc_bit_timing`, in iteration order. -/
def btCandidates (c : GsBtConst) : List (ℕ × ℕ × ℕ) :=
  (rangeIncl c.brp_min c.brp_max).flatMap (fun brp =>
    (rangeIncl c.tseg1_min c.tseg1_max).flatMap (fun t1 =>
      (rangeIncl c.tseg2_min c.tseg2_max).map (fun t2 => (brp, t1, t2))))

/-- Value in ℚ of a numerator/denominator pair. -/
def fracQ (p : ℕ × ℕ) : ℚ := (p.1 : ℚ) / (p.2 : ℚ)

/-- Fraction comparison by cross-multiplication (agrees with `fracQ _ ≤ fracQ _`
whenever both denominators are positive). -/
def fracLe (a b : ℕ × ℕ) : Bool := decide (a.1 * b.2 ≤ b.1 * a.2)

/-- One loop body of `calc_bit_timing`: `none` when the candidate is
rejected (`rate_error > 0.05`, or `prop_seg` cannot be made positive),
otherwise the derived timing together with its score (a fraction). -/
def evalCandidate (bitrate : ℕ) (c : GsBtConst) : ℕ × ℕ × ℕ → Option (GsDeviceBitTiming × (ℕ × ℕ))
  | (brp, tseg1, tseg2) =>
    let total_tq : ℕ := 1 + tseg1 + tseg2
    -- rate_error = rate_num / rate_den
    let rate_num : ℕ := Nat.dist c.fclk_can (bitrate * (brp * total_tq))
    let rate_den : ℕ := bitrate * (brp * total_tq)
    -- `rate_error > 0.05` rejection
    if rate_den < 20 * rate_num then none
    else
      -- sample_error = |(1+tseg1)/total_tq - 7/8| = sample_num / sample_den
      let sample_num : ℕ := Nat.dist (8 * (1 + tseg1)) (7 * total_tq)
      let sample_den : ℕ := 8 * total_tq
      -- score = 10·rate_error + sample_error
      let score : ℕ × ℕ :=
        (10 * rate_num * sample_den + sample_num * rate_den, rate_den * sample_den)
      let ps1a : ℕ := if 1 < tseg1 then min (tseg1 / 2) c.tseg1_max else 1
      let ps1b : ℕ := if ps1a = 0 then 1 else ps1a
      let prop0 : ℕ := tseg1 - ps1b
      if prop0 = 0 ∧ ps1b ≤ 1 then none
      else
        let phase_seg1 := if prop0 = 0 then ps1b - 1 else ps1b
        let prop_seg := if prop0 = 0 then 1 else prop0
        let phase_seg2 := tseg2
        let sjw := min c.sjw_max phase_seg2
        some ({ prop_seg := prop_seg, phase_seg1 := phase_seg1,
                phase_seg2 := phase_seg2, sjw := sjw, brp := brp }, score)

/-- The `best` update of one loop iteration: first-seen wins ties. -/
def stepBest (bitrate : ℕ) (c : GsBtConst)
    (best : Option (GsDeviceBitTiming × (ℕ × ℕ))) (cand : ℕ × ℕ × ℕ) :
    Option (GsDeviceBitTiming × (ℕ × ℕ)) :=
  match evalCandidate bitrate c cand with
  | none => best
  | some (t, s) =>
    match best with
    | some (bt, bs) => if fracLe bs s then some (bt, bs) else some (t, s)
    | none => some (t, s)

/-- `calc_bit_timing` from `src/drivers/gs_usb/bit_timing.rs`. -/
def calc_bit_timing (bitrate : ℕ) (c : GsBtConst) : Option GsDeviceBitTiming :=
  ((btCandidates c).foldl (stepBest bitrate c) none).map Prod.fst

/-- Derived quantities of a returned solution, as the spec states them. -/
def totalTqOf (t : GsDeviceBitTiming) : ℕ :=
  1 + t.prop_seg + t.phase_seg1 + t.phase_seg2

def samplePointOf (t : GsDeviceBitTiming) : ℚ :=
  ((1 + t.prop_seg + t.phase_seg1 : ℕ) : ℚ) / ((totalTqOf t : ℕ) : ℚ)

def rateErrorOf (bitrate : ℕ) (c : GsBtConst) (t : GsDeviceBitTiming) : ℚ :=
  |(c.fclk_can : ℚ) / ((t.brp : ℚ) * ((totalTqOf t : ℕ) : ℚ)) - (bitrate : ℚ)| /
    (bitrate : ℚ)

/-- The candleLight-class constraint set named by the spec's quantified
invariant 1: fclk 48 MHz, tseg1 ∈ [1,16], tseg2 ∈ [1,8], sjw_max 4,
brp ∈ [1,1024]. -/
def candleCaps : GsBtConst :=
  { feature := 0, fclk_can := 48000000, tseg1_min := 1, tseg1_max := 16,
    tseg2_min := 1, tseg2_max := 8, sjw_max := 4, brp_min := 1,
    brp_max := 1024, brp_inc := 1 }

/-- `candleCaps` with the search restricted to `brp = 12`, as in claim C8. -/
def candleCapsBrp12 : GsBtConst :=
  { candleCaps with brp_min := 12, brp_max := 12 }

/-! ### The timestamp extension iterated over input sequences (claim C6) -/

/-- Outputs of the timestamp extension over a sequence of 32-bit inputs,
starting from an unset `last` value; each output becomes the new `last`. -/
def ts64Outputs (last : Option ℕ) : List ℕ → List ℕ
  | [] => []
  | t :: ts => ts64Step last t :: ts64Outputs (some (ts64Step last t)) ts

/-- The `last_timestamp64` state after processing a sequence. -/
def ts64StateAfter (last : Option ℕ) (l : List ℕ) : Option ℕ :=
  l.foldl (fun st t => some (ts64Step st t)) last

/-- Number of strict decreases between consecutive elements (each one makes
the extension add `1 << 32` to the upper word). -/
def decCount : List ℕ → ℕ
  | [] => 0
  | [_] => 0
  | a :: b :: t => (if b < a then 1 else 0) + decCount (b :: t)

/-- `k` copies of the wrap-provoking input pair `1, 0`. -/
def tsWrapSeq : ℕ → List ℕ
  | 0 => []
  | k + 1 => tsWrapSeq k ++ [1, 0]

/-! ### SLCAN line protocol (`src/slcan.rs`)

Bytes are ASCII codes: `t` = 116, `T` = 84, `J` = 74, carriage return = 13,
`0`–`9` = 48–57, `A`–`F` = 65–70, `+` = 43. -/

/-- `char::to_digit(10)` on a byte. -/
def digit10 (b : ℕ) : Option ℕ :=
  if 48 ≤ b ∧ b ≤ 57 then some (b - 48) else none

/-- Value of one hexadecimal digit byte (`0-9`, `a-f`, `A-F`), as accepted
by `from_str_radix(_, 16)`.  A byte that is not ASCII hex — including any
byte ≥ 128, for which `str::from_utf8` may also fail first — yields `none`
either way. -/
def hexVal (b : ℕ) : Option ℕ :=
  if 48 ≤ b ∧ b ≤ 57 then some (b - 48)
  else if 65 ≤ b ∧ b ≤ 70 then some (b - 65 + 10)
  else if 97 ≤ b ∧ b ≤ 102 then some (b - 97 + 10)
  else none

/-- Digit-accumulation loop of `uN::from_str_radix(s, 16)` with overflow
bound `B` (`2^32` for `u32`, `2^8` for `u8`): digits are consumed left to
right and a checked multiply-add fails once the value reaches `B`. -/
def parseRadix16Acc (B : ℕ) : ℕ → List ℕ → Option ℕ
  | acc, [] => some acc
  | acc, b :: rest =>
    (hexVal b).bind fun d =>
      if acc * 16 + d < B then parseRadix16Acc B (acc * 16 + d) rest else none

/-- `uN::from_str_radix(s, 16)`: empty input fails; one leading `+` is
accepted when digits follow. -/
def parseRadix16 (B : ℕ) (l : List ℕ) : Option ℕ :=
  match l with
  | [] => none
  | b :: rest =>
    if b = 43 then (if rest = [] then none else parseRadix16Acc B 0 rest)
    else parseRadix16Acc B 0 (b :: rest)

/-- `parse_hex_u32` from `slcan.rs` (`from_utf8` + `u32::from_str_radix`). -/
def parse_hex_u32 (l : List ℕ) : Option ℕ := parseRadix16 (2 ^ 32) l

/-- The Rust slice `&line[a..b]` (callers guarantee `b ≤ line.len()`). -/
def sliceRange (l : List ℕ) (a b : ℕ) : List ℕ := (l.drop a).take (b - a)

/-- The data-byte loop of `parse_slcan_line_bytes`: `dlc` pairs of hex
digits, each parsed with `u8::from_str_radix`, starting at `data_start`
(the caller has checked `line.len() ≥ data_start + 2·dlc`, so every pair is
in bounds).  Modelled on the suffix `line.drop data_start`. -/
def parseDataPairs : List ℕ → ℕ → Option (List ℕ)
  | _, 0 => some []
  | a :: b :: rest, k + 1 =>
    match parseRadix16 (2 ^ 8) [a, b] with
    | none => none
    | some v =>
      match parseDataPairs rest k with
      | none => none
      | some vs => some (v :: vs)
  | _, _ + 1 => none

/-- Common tail of `parse_slcan_line_bytes` once `id`, `extended`, `dlc`,
`data_start` and `ts_start = data_start + 2·dlc` are fixed: length guard,
data-byte loop, optional timestamp word, frame construction. -/
def parse_slcan_frame_tail (timestamp_high : ℕ) (line : List ℕ) (has_timestamp : Bool)
    (id : ℕ) (extended : Bool) (dlc : ℕ) (data_start : ℕ) :
    Option (Option CanFrame × ℕ) :=
  if line.length < data_start + dlc * 2 then some (none, timestamp_high)
  else
    match parseDataPairs (line.drop data_start) dlc with
    | none => some (none, timestamp_high)
    | some data =>
      let ts_start := data_start + dlc * 2
      let timestamp : Option ℕ :=
        if has_timestamp ∧ ts_start + 8 ≤ line.length then
          (parse_hex_u32 (sliceRange line ts_start (ts_start + 8))).map
            (fun low => (timestamp_high <<< 32) ||| low)
        else none
      match (if extended then CanFrame.new_eff id data else CanFrame.new id data) with
      | none => some (none, timestamp_high)
      | some frame => some (some (frame.set_timestamp timestamp), timestamp_high)

/-- `parse_slcan_line_bytes` from `src/slcan.rs`.  The state is the
`timestamp_high` word (a `u32`); the result is `none` for the Rust panic
(`line[4]` / `line[9]` indexed out of bounds in the `has_timestamp`
computation, reachable for a `t` line of 2–4 bytes or a `T` line of 2–9
bytes), and `some (emitted?, timestamp_high')` for a normal return. -/
def parse_slcan_line_bytes (timestamp_high : ℕ) (line : List ℕ) :
    Option (Option CanFrame × ℕ) :=
  match line with
  | [] => some (none, timestamp_high)
  | b0 :: _ =>
    -- `has_timestamp` computation (may panic, may return `None` via `?`)
    let hasTsStep : Option (Option Bool) :=
      if 1 < line.length then
        if b0 = 116 then
          if line.length ≤ 4 then none           -- Rust panic: index 4 OOB
          else
            match digit10 (line.getD 4 0) with
            | none => some none                  -- `?` returns None
            | some len => some (some (decide (line.length = 5 + len * 2 + 8 + 1)))
        else if b0 = 84 then
          if line.length ≤ 9 then none           -- Rust panic: index 9 OOB
          else
            match digit10 (line.getD 9 0) with
            | none => some none
            | some len => some (some (decide (line.length = 10 + len * 2 + 8 + 1)))
        else some (some false)
      else some (some false)
    match hasTsStep with
    | none => none                               -- panic propagates
    | some none => some (none, timestamp_high)   -- early `?` return
    | some (some has_timestamp) =>
      -- main dispatch on the first byte
      if b0 = 116 then
        if line.length < 5 then some (none, timestamp_high)
        else
          match parse_hex_u32 (sliceRange line 1 4) with
          | none => some (none, timestamp_high)
          | some id =>
            match digit10 (line.getD 4 0) with
            | none => some (none, timestamp_high)
            | some dlc =>
              parse_slcan_frame_tail timestamp_high line has_timestamp id false dlc 5
      else if b0 = 84 then
        if line.length < 10 then some (none, timestamp_high)
        else
          match parse_hex_u32 (sliceRange line 1 9) with
          | none => some (none, timestamp_high)
          | some id =>
            match digit10 (line.getD 9 0) with
            | none => some (none, timestamp_high)
            | some dlc =>
              parse_slcan_frame_tail timestamp_high line has_timestamp id true dlc 10
      else if b0 = 74 then
        some (none, (timestamp_high + 1) % 2 ^ 32)
      else some (none, timestamp_high)

/-- The `memchr(b'\r', ..)` scan of `read_frames`: all completed
(`\r`-terminated) lines currently in the accumulator, in order, each
including its terminating `13`; trailing bytes after the last carriage
return stay in `leftover`.  `cur` carries the bytes of the line being
scanned. -/
def slcanLinesAux (cur : List ℕ) : List ℕ → List (List ℕ)
  | [] => []
  | b :: rest =>
    if b = 13 then (cur ++ [13]) :: slcanLinesAux [] rest
    else slcanLinesAux (cur ++ [b]) rest

def slcanLines (buf : List ℕ) : List (List ℕ) := slcanLinesAux [] buf

/-- The `read_frames` parse loop over the completed lines: parses each line
in order, threading `timestamp_high` and collecting emitted frames; a parse
panic propagates. -/
def processLines (timestamp_high : ℕ) : List (List ℕ) → Option (List CanFrame × ℕ)
  | [] => some ([], timestamp_high)
  | l :: ls =>
    match parse_slcan_line_bytes timestamp_high l with
    | none => none
    | some (emitted, ts') =>
      match processLines ts' ls with
      | none => none
      | some (frames, tsf) => some (emitted.toList ++ frames, tsf)

/-- `read_frames` (pure part) on the bytes accumulated in `leftover`:
frames emitted and the final `timestamp_high`. -/
def slcan_read_frames (timestamp_high : ℕ) (buf : List ℕ) :
    Option (List CanFrame × ℕ) :=
  processLines timestamp_high (slcanLines buf)

/-- `send_frame` from `src/slcan.rs`: ASCII encoding of a frame.  `{:03X}` /
`{:08X}` / `{:02X}` produce uppercase hexadecimal, left-padded with zeros to
the field width (and more digits when the value needs them); `{}` on the
DLC produces decimal digits. -/
def hexDigUp (n : ℕ) : ℕ := if n < 10 then 48 + n else 55 + n

/-- Hex digit expansion, most significant first, with structural fuel
(`fuel > n` always suffices, since `n/16 < n`). -/
def toHexDigitsAux : ℕ → ℕ → List ℕ
  | 0, _ => []
  | fuel + 1, n =>
    if n < 16 then [hexDigUp n]
    else toHexDigitsAux fuel (n / 16) ++ [hexDigUp (n % 16)]

def toHexDigits (n : ℕ) : List ℕ := toHexDigitsAux (n + 1) n

/-- Decimal digit expansion, most significant first. -/
def toDecDigitsAux : ℕ → ℕ → List ℕ
  | 0, _ => []
  | fuel + 1, n =>
    if n < 10 then [48 + n]
    else toDecDigitsAux fuel (n / 10) ++ [48 + n % 10]

def toDecDigits (n : ℕ) : List ℕ := toDecDigitsAux (n + 1) n

/-- Zero-pad on the left to width `w` (ASCII `0` = 48). -/
def padZeros (w : ℕ) (l : List ℕ) : List ℕ := List.replicate (w - l.length) 48 ++ l

/-- `format!("{:0wX}", n)`. -/
def formatHex (w n : ℕ) : List ℕ := padZeros w (toHexDigits n)

/-- The bytes written by `SlcanDriver::send_frame` for a frame. -/
def slcan_send_frame (f : CanFrame) : List ℕ :=
  (if f.extended then 84 :: formatHex 8 f.id else 116 :: formatHex 3 f.id)
    ++ toDecDigits f.dlc ++ f.data.flatMap (fun b => formatHex 2 b) ++ [13]

/-! ### Driver session state and `open_channel` guards (claim C7)

Control/serial transfers are abstracted as succeeding; the embeddings
return the wire payloads the code issues, so the guards and error paths —
which is what claim C7 is about — are modelled exactly. -/

inductive IoErrorKind where
  | invalidInput
  | timedOut
  | other
  deriving DecidableEq, Repr

/-- The session fields of `GsUsbDriver` that `open_channel` consults. -/
structure GsSessionState where
  configured_bitrate : Option ℕ
  timestamp_enabled : Bool
  pad_pkts : Bool
  deriving DecidableEq, Repr

/-- `GsUsbDriver::set_bitrate` (pure part): fails when `BT_CONST` was never
read or the solver finds no timing; only on success is
`configured_bitrate` recorded. -/
def gs_usb_set_bitrate (s : GsSessionState) (bt_const : Option GsBtConst)
    (bitrate : ℕ) : Except IoErrorKind GsSessionState :=
  match bt_const with
  | none => .error .other
  | some bt =>
    match calc_bit_timing bitrate bt with
    | none => .error .invalidInput
    | some _ => .ok { s with configured_bitrate := some bitrate }

/-- `GsUsbDriver::open_channel`: fails with InvalidInput when no bitrate is
configured; otherwise `open_channel_inner` issues `MODE(RESET, 0)` then
`MODE(START, flags)` (returned as `(mode, flags)` pairs). -/
def gs_usb_open_channel (s : GsSessionState) : Except IoErrorKind (List (ℕ × ℕ)) :=
  if s.configured_bitrate = none then .error .invalidInput
  else
    let flags := (if s.timestamp_enabled then 16 else 0) +
      (if s.pad_pkts then 128 else 0)
    .ok [(0, 0), (1, flags)]

/-- The session fields of `SlcanDriver` that `open_channel` consults. -/
structure SlcanSessionState where
  configured_bitrate : Option ℕ
  timestamp_high : ℕ
  deriving DecidableEq, Repr

/-- `SlcanDriver::set_bitrate` (pure part): unsupported bitrates fail with
InvalidInput before `configured_bitrate` is set. -/
def slcan_set_bitrate (s : SlcanSessionState) (bitrate : ℕ) :
    Except IoErrorKind (SlcanSessionState × List ℕ) :=
  if bitrate = 10000 ∨ bitrate = 20000 ∨ bitrate = 50000 ∨ bitrate = 100000 ∨
      bitrate = 125000 ∨ bitrate = 250000 ∨ bitrate = 500000 ∨
      bitrate = 800000 ∨ bitrate = 1000000 then
    .ok ({ s with configured_bitrate := some bitrate }, [83, 13])
  else .error .invalidInput

/-- `SlcanDriver::open_channel`: writes `O\r` unconditionally — the
configured bitrate is never checked. -/
def slcan_open_channel (_s : SlcanSessionState) : Except IoErrorKind (List ℕ) :=
  .ok [79, 13]

/-- A gs_usb session on which `set_bitrate` has not completed. -/
def gsNoBitrate : GsSessionState :=
  { configured_bitrate := none, timestamp_enabled := false, pad_pkts := false }

/-- An SLCAN session on which `set_bitrate` has not completed. -/
def slcanNoBitrate : SlcanSessionState :=
  { configured_bitrate := none, timestamp_high := 0 }

/-! ### Server bridge IPC framing (`src/bin/canserver.rs`, claim C10)

The bincode serialization of the external `CanFrame` type is abstracted as
an `encode`/`decode` parameter. -/

/-- `forward_can_to_pipe` (pure part): each frame that bincode serializes
is dropped when its payload exceeds 255 bytes, otherwise sent as one
length byte followed by the payload. -/
def forward_can_to_pipe (encode : CanFrame → Option (List ℕ))
    (frames : List CanFrame) : List (List ℕ) :=
  frames.filterMap (fun f =>
    match encode f with
    | none => none
    | some data => if 255 < data.length then none else some (data.length :: data))

/-- `start_ipc_reader` (pure part): every nonempty chunk read from the
inbound pipe is forwarded unchanged as one message; a zero-byte read ends
the connection.  No length prefix is parsed or stripped. -/
def ipc_reader_messages (chunks : List (List ℕ)) : List (List ℕ) :=
  chunks.takeWhile (fun c => c ≠ [])

/-- `forward_pipe_to_can` (pure part): each received message is passed
whole to the bincode decoder; decoded frames are sent to the driver. -/
def forward_pipe_to_can (decode : List ℕ → Option CanFrame)
    (msgs : List (List ℕ)) : List CanFrame :=
  msgs.filterMap decode

/-- The length-prefixed message envelope asserted by the spec: one length
byte equal to the payload's length, followed by exactly that payload. -/
def wellFramed (m : List ℕ) : Prop := ∃ n p, m = n :: p ∧ p.length = n

/-- A fixed decoder and frame for exercising the inbound path. -/
def cDecodeFrame : CanFrame :=
  { id := 1, extended := false, rtr := false, error := false,
    dlc := 0, data := [], timestamp := none }

def cDecode (m : List ℕ) : Option CanFrame :=
  if m = [0, 1] then some cDecodeFrame else none

/-- A fixed encoder for exercising the outbound path. -/
def cEncode (_f : CanFrame) : Option (List ℕ) := some [7, 7]

/-! ### Concrete frames and byte strings used by the SLCAN claims -/

/-- Frame of spec scenario S5, first line `t1230\r`. -/
def s5Frame1 : CanFrame :=
  { id := 0x123, extended := false, rtr := false, error := false,
    dlc := 0, data := [], timestamp := none }

/-- Frame of spec scenario S5, third line `t1230FFFFFFFF\r`:
timestamp `(1 <<< 32) ||| 0xFFFFFFFF = 8589934591`. -/
def s5Frame2 : CanFrame :=
  { id := 0x123, extended := false, rtr := false, error := false,
    dlc := 0, data := [], timestamp := some 8589934591 }

/-- The S5 input stream `t1230\r J\r t1230FFFFFFFF\r` (whitespace in the
spec's rendering is formatting, not stream content). -/
def s5Bytes : List ℕ :=
  [116, 49, 50, 51, 48, 13, 74, 13,
   116, 49, 50, 51, 48, 70, 70, 70, 70, 70, 70, 70, 70, 13]

/-- A classical remote (RTR) frame: standard id 1, dlc 1, no data. -/
def rtrFrame : CanFrame :=
  { id := 1, extended := false, rtr := true, error := false,
    dlc := 1, data := [], timestamp := none }

/-- A well-formed classical data frame used as a round-trip witness. -/
def s4Frame : CanFrame :=
  { id := 0x1F, extended := false, rtr := false, error := false,
    dlc := 2, data := [0x11, 0x22], timestamp := none }

/-! ### Semantic lemmas about the bit-timing solver -/

/-- Casting `Nat.dist` to ℚ gives the absolute difference. -/
lemma cast_natDist (m n : ℕ) : ((Nat.dist m n : ℕ) : ℚ) = |(m : ℚ) - (n : ℚ)| := by
  rcases le_total m n with h | h
  · rw [Nat.dist_eq_sub_of_le h, abs_sub_comm, abs_of_nonneg (by
      have : (m : ℚ) ≤ (n : ℚ) := by exact_mod_cast h
      linarith)]
    push_cast [h]
    ring
  · rw [Nat.dist_eq_sub_of_le_right h, abs_of_nonneg (by
      have : (n : ℚ) ≤ (m : ℚ) := by exact_mod_cast h
      linarith)]
    push_cast [h]
    ring

/-- `fracLe` agrees with the rational order when denominators are positive. -/
lemma fracLe_iff {a b : ℕ × ℕ} (ha : 0 < a.2) (hb : 0 < b.2) :
    fracLe a b = true ↔ fracQ a ≤ fracQ b := by
  have ha' : (0 : ℚ) < (a.2 : ℚ) := by exact_mod_cast ha
  have hb' : (0 : ℚ) < (b.2 : ℚ) := by exact_mod_cast hb
  rw [fracLe, decide_eq_true_iff, fracQ, fracQ, div_le_div_iff ha' hb']
  exact_mod_cast Iff.rfl

lemma mem_rangeIncl {x a b : ℕ} : x ∈ rangeIncl a b ↔ a ≤ x ∧ x ≤ b := by
  rw [rangeIncl, List.mem_range']
  constructor
  · rintro ⟨i, hi, rfl⟩
    omega
  · rintro ⟨h1, h2⟩
    exact ⟨x - a, by omega, by omega⟩

lemma mem_btCandidates {c : GsBtConst} {brp t1 t2 : ℕ} :
    (brp, t1, t2) ∈ btCandidates c ↔
      (c.brp_min ≤ brp ∧ brp ≤ c.brp_max) ∧
      (c.tseg1_min ≤ t1 ∧ t1 ≤ c.tseg1_max) ∧
      (c.tseg2_min ≤ t2 ∧ t2 ≤ c.tseg2_max) := by
  simp only [btCandidates, List.mem_flatMap, List.mem_map, mem_rangeIncl,
    Prod.mk.injEq]
  constructor
  · rintro ⟨a, ha, b, hb, d, hd, h1, h2, h3⟩
    subst h1; subst h2; subst h3
    exact ⟨ha, hb, hd⟩
  · rintro ⟨ha, hb, hd⟩
    exact ⟨brp, ha, t1, hb, t2, ⟨hd, rfl, rfl, rfl⟩⟩

/-- Structure of a candidate accepted by the loop body of
`calc_bit_timing`. -/
lemma evalCandidate_eq_some {bitrate : ℕ} {c : GsBtConst} {brp t1 t2 : ℕ}
    {t : GsDeviceBitTiming} {s : ℕ × ℕ}
    (h : evalCandidate bitrate c (brp, t1, t2) = some (t, s)) :
    t.brp = brp ∧ t.phase_seg2 = t2 ∧ t.prop_seg + t.phase_seg1 = t1 ∧
    1 ≤ t.prop_seg ∧ 1 ≤ t.phase_seg1 ∧ t.sjw = min c.sjw_max t2 ∧
    20 * Nat.dist c.fclk_can (bitrate * (brp * (1 + t1 + t2)))
      ≤ bitrate * (brp * (1 + t1 + t2)) ∧
    s = (10 * Nat.dist c.fclk_can (bitrate * (brp * (1 + t1 + t2))) * (8 * (1 + t1 + t2))
           + Nat.dist (8 * (1 + t1)) (7 * (1 + t1 + t2))
             * (bitrate * (brp * (1 + t1 + t2))),
         bitrate * (brp * (1 + t1 + t2)) * (8 * (1 + t1 + t2))) := by
  rw [evalCandidate] at h
  set total := 1 + t1 + t2 with htotal
  by_cases hrej : bitrate * (brp * total) < 20 * Nat.dist c.fclk_can (bitrate * (brp * total))
  · simp [hrej] at h
  · simp only [if_neg hrej] at h
    set ps1a := if 1 < t1 then min (t1 / 2) c.tseg1_max else 1 with hps1a
    set ps1b := if ps1a = 0 then 1 else ps1a with hps1b
    have hps1b_pos : 1 ≤ ps1b := by
      rw [hps1b]; split <;> omega
    have hps1b_le : t1 ≤ 1 ∨ ps1b ≤ t1 := by
      rcases Nat.lt_or_ge 1 t1 with h1 | h1
      · right
        have : ps1a ≤ t1 / 2 := by rw [hps1a, if_pos h1]; exact Nat.min_le_left _ _
        rw [hps1b]
        split <;> omega
      · left; omega
    by_cases hzero : t1 - ps1b = 0 ∧ ps1b ≤ 1
    · simp [hzero] at h
    · simp only [if_neg hzero] at h
      rw [Option.some_inj, Prod.mk.injEq] at h
      obtain ⟨ht, hs⟩ := h
      by_cases hp0 : t1 - ps1b = 0
      · have hps1b2 : 2 ≤ ps1b := by omega
        have ht1ps : ps1b = t1 := by
          rcases hps1b_le with h1 | h1
          · exfalso
            have : ps1a = 1 := by rw [hps1a, if_neg (by omega)]
            rw [hps1b, this] at hps1b2
            simp at hps1b2
          · omega
        subst ht
        refine ⟨rfl, rfl, by simp [hp0]; omega, by simp [hp0], by simp [hp0]; omega, rfl,
          by omega, by rw [← hs]⟩
      · subst ht
        refine ⟨rfl, rfl, by simp [hp0]; omega, by simp [hp0]; omega, by simp [hp0]; omega,
          rfl, by omega, by rw [← hs]⟩

/-- The score denominator of an accepted candidate is positive when the
target bitrate and the candidate prescaler are. -/
lemma evalCandidate_den_pos {bitrate : ℕ} {c : GsBtConst} {brp t1 t2 : ℕ}
    {t : GsDeviceBitTiming} {s : ℕ × ℕ}
    (h : evalCandidate bitrate c (brp, t1, t2) = some (t, s))
    (hb : 0 < bitrate) (hbrp : 0 < brp) : 0 < s.2 := by
  obtain ⟨-, -, -, -, -, -, -, hs⟩ := evalCandidate_eq_some h
  rw [hs]
  positivity

/-- Any `some` state of the fold arose from `evalCandidate` on a candidate
satisfying `Q`, provided the initial state did and all list elements do. -/
lemma foldBest_inv {bitrate : ℕ} {c : GsBtConst} (Q : ℕ × ℕ × ℕ → Prop) :
    ∀ (l : List (ℕ × ℕ × ℕ)) (best : Option (GsDeviceBitTiming × (ℕ × ℕ))),
    (∀ t s, best = some (t, s) → ∃ cd, Q cd ∧ evalCandidate bitrate c cd = some (t, s)) →
    (∀ cd ∈ l, Q cd) →
    ∀ t s, l.foldl (stepBest bitrate c) best = some (t, s) →
      ∃ cd, Q cd ∧ evalCandidate bitrate c cd = some (t, s)
  | [], best, hbest, _, t, s, hfold => hbest t s hfold
  | cd₀ :: rest, best, hbest, hl, t, s, hfold => by
    have hcd₀ : Q cd₀ := hl cd₀ (List.mem_cons_self _ _)
    have hrest : ∀ cd ∈ rest, Q cd := fun cd hcd => hl cd (List.mem_cons_of_mem _ hcd)
    refine foldBest_inv Q rest (stepBest bitrate c best cd₀) ?_ hrest t s hfold
    intro t' s' hstep
    rw [stepBest] at hstep
    rcases heval : evalCandidate bitrate c cd₀ with - | ⟨t₀, s₀⟩
    · rw [heval] at hstep
      exact hbest t' s' hstep
    · rw [heval] at hstep
      rcases best with - | ⟨bt, bs⟩
      · exact ⟨cd₀, hcd₀, by rw [heval, ← hstep]⟩
      · by_cases hle : fracLe bs s₀
        · simp only [hle, if_true] at hstep
          exact hbest t' s' hstep
        · simp only [hle, if_false, Bool.false_eq_true] at hstep
          exact ⟨cd₀, hcd₀, by rw [heval, ← hstep]⟩

/-- Folding from a `some` state keeps a `some` state whose score (as a
rational) never increases; denominators stay positive. -/
lemma foldBest_mono {bitrate : ℕ} {c : GsBtConst} (hb : 0 < bitrate) :
    ∀ (l : List (ℕ × ℕ × ℕ)), (∀ cd ∈ l, 0 < cd.1) →
    ∀ (bt : GsDeviceBitTiming) (bs : ℕ × ℕ), 0 < bs.2 →
    ∃ t s, l.foldl (stepBest bitrate c) (some (bt, bs)) = some (t, s) ∧
      0 < s.2 ∧ fracQ s ≤ fracQ bs
  | [], _, bt, bs, hbs => ⟨bt, bs, rfl, hbs, le_refl _⟩
  | cd₀ :: rest, hl, bt, bs, hbs => by
    have hrest : ∀ cd ∈ rest, 0 < cd.1 := fun cd hcd => hl cd (List.mem_cons_of_mem _ hcd)
    have hcd₀ : 0 < cd₀.1 := hl cd₀ (List.mem_cons_self _ _)
    rw [List.foldl_cons, stepBest]
    rcases heval : evalCandidate bitrate c cd₀ with - | ⟨t₀, s₀⟩
    · exact foldBest_mono hb rest hrest bt bs hbs
    · have hs₀ : 0 < s₀.2 := by
        obtain ⟨b₀, u₀, v₀⟩ := cd₀
        exact evalCandidate_den_pos heval hb hcd₀
      by_cases hle : fracLe bs s₀
      · simp only [hle, if_true]
        exact foldBest_mono hb rest hrest bt bs hbs
      · simp only [hle, if_false, Bool.false_eq_true]
        obtain ⟨t, s, hfold, hsden, hsle⟩ := foldBest_mono hb rest hrest t₀ s₀ hs₀
        refine ⟨t, s, hfold, hsden, hsle.trans ?_⟩
        have := (fracLe_iff hs₀ hbs).mpr
        by_contra hcon
        push_neg at hcon
        exact hle ((fracLe_iff hbs hs₀).mpr (by linarith))

/-- If some candidate of the list is accepted, the fold ends in a `some`
state whose score is at most the accepted candidate's score. -/
lemma foldBest_min {bitrate : ℕ} {c : GsBtConst} (hb : 0 < bitrate) :
    ∀ (l : List (ℕ × ℕ × ℕ)), (∀ cd ∈ l, 0 < cd.1) →
    ∀ (best : Option (GsDeviceBitTiming × (ℕ × ℕ))),
    (∀ t s, best = some (t, s) → 0 < s.2) →
    ∀ cd ∈ l, ∀ (tw : GsDeviceBitTiming) (sw : ℕ × ℕ),
      evalCandidate bitrate c cd = some (tw, sw) →
    ∃ t s, l.foldl (stepBest bitrate c) best = some (t, s) ∧
      0 < s.2 ∧ fracQ s ≤ fracQ sw
  | [], _, best, _, cd, hcd, tw, sw, hw => absurd hcd (List.not_mem_nil _)
  | cd₀ :: rest, hl, best, hbest, cd, hcd, tw, sw, hw => by
    have hrest : ∀ cd ∈ rest, 0 < cd.1 := fun cd hcd => hl cd (List.mem_cons_of_mem _ hcd)
    have hcd₀ : 0 < cd₀.1 := hl cd₀ (List.mem_cons_self _ _)
    rcases List.mem_cons.mp hcd with rfl | hcdrest
    · -- the accepted candidate is the head
      have hsw : 0 < sw.2 := by
        obtain ⟨b₀, u₀, v₀⟩ := cd
        exact evalCandidate_den_pos hw hb hcd₀
      rw [List.foldl_cons, stepBest, hw]
      rcases best with - | ⟨bt, bs⟩
      · exact foldBest_mono hb rest hrest tw sw hsw
      · have hbs : 0 < bs.2 := hbest bt bs rfl
        by_cases hle : fracLe bs sw
        · simp only [hle, if_true]
          obtain ⟨t, s, hfold, hsden, hsle⟩ := foldBest_mono hb rest hrest bt bs hbs
          exact ⟨t, s, hfold, hsden, hsle.trans ((fracLe_iff hbs hsw).mp hle)⟩
        · simp only [hle, if_false, Bool.false_eq_true]
          exact foldBest_mono hb rest hrest tw sw hsw
    · -- the accepted candidate is in the tail
      rw [List.foldl_cons]
      refine foldBest_min hb rest hrest (stepBest bitrate c best cd₀) ?_ cd hcdrest tw sw hw
      intro t' s' hstep
      rw [stepBest] at hstep
      rcases heval : evalCandidate bitrate c cd₀ with - | ⟨t₀, s₀⟩
      · rw [heval] at hstep
        exact hbest t' s' hstep
      · have hs₀ : 0 < s₀.2 := by
          obtain ⟨b₀, u₀, v₀⟩ := cd₀
          exact evalCandidate_den_pos heval hb hcd₀
        rw [heval] at hstep
        rcases best with - | ⟨bt, bs⟩
        · rw [Option.some_inj, Prod.mk.injEq] at hstep
          obtain ⟨-, h2⟩ := hstep
          rw [← h2]; exact hs₀
        · by_cases hle : fracLe bs s₀
          · simp only [hle, if_true] at hstep
            exact hbest t' s' hstep
          · simp only [hle, if_false, Bool.false_eq_true] at hstep
            rw [Option.some_inj, Prod.mk.injEq] at hstep
            obtain ⟨-, h2⟩ := hstep
            rw [← h2]; exact hs₀

/-- Rate-error bridge: the integer filter retained by the loop body bounds
the rational rate error of the solution. -/
lemma rateError_le_of_filter {F R B T : ℕ} (hR : 0 < R) (hB : 0 < B) (hT : 0 < T)
    (h : 20 * Nat.dist F (R * (B * T)) ≤ R * (B * T)) :
    |(F : ℚ) / ((B : ℚ) * (T : ℚ)) - (R : ℚ)| / (R : ℚ) ≤ 1 / 20 := by
  have hBq : (0 : ℚ) < (B : ℚ) := by exact_mod_cast hB
  have hTq : (0 : ℚ) < (T : ℚ) := by exact_mod_cast hT
  have hRq : (0 : ℚ) < (R : ℚ) := by exact_mod_cast hR
  have hBT : (0 : ℚ) < (B : ℚ) * (T : ℚ) := by positivity
  have hsub : (F : ℚ) / ((B : ℚ) * (T : ℚ)) - (R : ℚ)
      = ((F : ℚ) - (R : ℚ) * ((B : ℚ) * (T : ℚ))) / ((B : ℚ) * (T : ℚ)) := by
    field_simp
    ring
  have hd : ((Nat.dist F (R * (B * T)) : ℕ) : ℚ)
      = |(F : ℚ) - (R : ℚ) * ((B : ℚ) * (T : ℚ))| := by
    rw [cast_natDist]
    push_cast
    ring_nf
  have hcross : |(F : ℚ) - (R : ℚ) * ((B : ℚ) * (T : ℚ))| * 20
      ≤ (R : ℚ) * ((B : ℚ) * (T : ℚ)) := by
    have h20 : ((20 * Nat.dist F (R * (B * T)) : ℕ) : ℚ) ≤ ((R * (B * T) : ℕ) : ℚ) := by
      exact_mod_cast h
    push_cast at h20
    rw [hd] at h20
    push_cast at h20 ⊢
    linarith
  rw [hsub, abs_div, abs_of_pos hBT, div_div,
    div_le_div_iff (by positivity) (by norm_num : (0 : ℚ) < 20)]
  nlinarith [hcross]

/-- Sample-error bridge: the integer fraction stored in the score equals
the rational distance of the sample point from 7/8. -/
lemma sampleErr_eq {u T : ℕ} (hT : 0 < T) :
    ((Nat.dist (8 * (1 + u)) (7 * T) : ℕ) : ℚ) / ((8 * T : ℕ) : ℚ)
      = |((1 + u : ℕ) : ℚ) / (T : ℚ) - 7 / 8| := by
  have hTq : (0 : ℚ) < (T : ℚ) := by exact_mod_cast hT
  have h8T : (0 : ℚ) < 8 * (T : ℚ) := by positivity
  have hsub : ((1 + u : ℕ) : ℚ) / (T : ℚ) - 7 / 8
      = (8 * (1 + (u : ℚ)) - 7 * (T : ℚ)) / (8 * (T : ℚ)) := by
    push_cast
    field_simp
    ring
  have hd : ((Nat.dist (8 * (1 + u)) (7 * T) : ℕ) : ℚ)
      = |8 * (1 + (u : ℚ)) - 7 * (T : ℚ)| := by
    rw [cast_natDist]
    push_cast
    ring_nf
  rw [hsub, abs_div, abs_of_pos h8T, hd]
  push_cast
  ring_nf

/-- Master lemma for the solver: if any candidate with score at most 3/8 is
accepted, the solver returns a solution satisfying the spec's bounds. -/
lemma calc_returns_good (bitrate : ℕ) (c : GsBtConst) (hb : 0 < bitrate)
    (hbrp : 1 ≤ c.brp_min) (ht2m : 1 ≤ c.tseg2_min)
    (cd : ℕ × ℕ × ℕ) (hcd : cd ∈ btCandidates c)
    (tw : GsDeviceBitTiming) (sw : ℕ × ℕ)
    (hw : evalCandidate bitrate c cd = some (tw, sw))
    (hsw : fracQ sw ≤ 3 / 8) :
    ∃ t, calc_bit_timing bitrate c = some t ∧
      rateErrorOf bitrate c t ≤ 1 / 20 ∧
      (1 / 2 : ℚ) ≤ samplePointOf t ∧ samplePointOf t < 1 ∧
      1 ≤ t.prop_seg ∧ 1 ≤ t.phase_seg1 ∧ 1 ≤ t.phase_seg2 ∧
      t.sjw = min c.sjw_max t.phase_seg2 := by
  have hpos : ∀ cd' ∈ btCandidates c, 0 < cd'.1 := by
    rintro ⟨b', u', v'⟩ h
    have := (mem_btCandidates.mp h).1.1
    simp only
    omega
  obtain ⟨t, s, hfold, hsden, hsle⟩ :=
    foldBest_min hb (btCandidates c) hpos none (by simp) cd hcd tw sw hw
  obtain ⟨cd', hcd', heval'⟩ :=
    foldBest_inv (· ∈ btCandidates c) (btCandidates c) none (by simp)
      (fun _ h => h) t s hfold
  obtain ⟨b', u', v'⟩ := cd'
  obtain ⟨⟨hb1, -⟩, -, hv1, -⟩ := mem_btCandidates.mp hcd'
  obtain ⟨hbrp', hps2', hsum, hprop1, hps11, hsjw, hrate, hseq⟩ :=
    evalCandidate_eq_some heval'
  have hbpos : 0 < b' := by omega
  have htot : totalTqOf t = 1 + u' + v' := by
    rw [totalTqOf]
    omega
  have hTpos : 0 < 1 + u' + v' := by omega
  have hcalc : calc_bit_timing bitrate c = some t := by
    rw [calc_bit_timing, hfold]
    rfl
  have hrateE : rateErrorOf bitrate c t ≤ 1 / 20 := by
    rw [rateErrorOf, htot, hbrp']
    exact rateError_le_of_filter hb hbpos hTpos hrate
  have hnum : (1 + t.prop_seg + t.phase_seg1 : ℕ) = 1 + u' := by omega
  have hsp : samplePointOf t = ((1 + u' : ℕ) : ℚ) / ((1 + u' + v' : ℕ) : ℚ) := by
    rw [samplePointOf, hnum, htot]
  have hTq : (0 : ℚ) < ((1 + u' + v' : ℕ) : ℚ) := by exact_mod_cast hTpos
  -- the sample error of the returned solution is below the score bound
  have hRDq : (0 : ℚ) < ((bitrate * (b' * (1 + u' + v')) : ℕ) : ℚ) := by
    have h0 : 0 < bitrate * (b' * (1 + u' + v')) := by positivity
    exact_mod_cast h0
  have hSDq : (0 : ℚ) < ((8 * (1 + u' + v') : ℕ) : ℚ) := by
    have h0 : 0 < 8 * (1 + u' + v') := by positivity
    exact_mod_cast h0
  have hfrac : fracQ s
      = 10 * (((Nat.dist c.fclk_can (bitrate * (b' * (1 + u' + v'))) : ℕ) : ℚ)
            / ((bitrate * (b' * (1 + u' + v')) : ℕ) : ℚ))
        + ((Nat.dist (8 * (1 + u')) (7 * (1 + u' + v')) : ℕ) : ℚ)
            / ((8 * (1 + u' + v') : ℕ) : ℚ) := by
    rw [hseq, fracQ]
    push_cast at hRDq hSDq ⊢
    field_simp
  have hsnsd : ((Nat.dist (8 * (1 + u')) (7 * (1 + u' + v')) : ℕ) : ℚ)
      / ((8 * (1 + u' + v') : ℕ) : ℚ) ≤ fracQ s := by
    have h10 : 0 ≤ 10 * (((Nat.dist c.fclk_can (bitrate * (b' * (1 + u' + v'))) : ℕ) : ℚ)
        / ((bitrate * (b' * (1 + u' + v')) : ℕ) : ℚ)) := by positivity
    linarith [hfrac]
  have hse : |((1 + u' : ℕ) : ℚ) / ((1 + u' + v' : ℕ) : ℚ) - 7 / 8| ≤ 3 / 8 := by
    rw [← sampleErr_eq hTpos]
    calc ((Nat.dist (8 * (1 + u')) (7 * (1 + u' + v')) : ℕ) : ℚ)
          / ((8 * (1 + u' + v') : ℕ) : ℚ)
        ≤ fracQ s := hsnsd
      _ ≤ fracQ sw := hsle
      _ ≤ 3 / 8 := hsw
  have hsp12 : (1 / 2 : ℚ) ≤ samplePointOf t := by
    rw [hsp]
    have := (abs_le.mp hse).1
    linarith
  have hsp1 : samplePointOf t < 1 := by
    rw [hsp, div_lt_one hTq]
    have hlt : (1 + u' : ℕ) < (1 + u' + v' : ℕ) := by omega
    exact_mod_cast hlt
  exact ⟨t, hcalc, hrateE, hsp12, hsp1, hprop1, hps11, by omega, by rw [hsjw, hps2']⟩

/-- C2: For every bitrate in {10000, 20000, 50000, 100000, 125000, 250000,
500000, 800000, 1000000} under the candleLight constraint set
(fclk 48 MHz, tseg1 ∈ [1,16], tseg2 ∈ [1,8], sjw_max 4, brp ∈ [1,1024]),
the bit-timing solver either fails explicitly or returns a solution whose
rate error is at most 0.05, whose sample point lies in [0.5, 1.0), and
which satisfies prop_seg ≥ 1, phase_seg1 ≥ 1, phase_seg2 ≥ 1 and
sjw = min(sjw_max, phase_seg2). -/
theorem c2_bit_timing_solver_bounds (b : ℕ)
    (hb : b ∈ [10000, 20000, 50000, 100000, 125000, 250000, 500000, 800000, 1000000]) :
    calc_bit_timing b candleCaps = none ∨
    ∃ t, calc_bit_timing b candleCaps = some t ∧
      rateErrorOf b candleCaps t ≤ 1 / 20 ∧
      (1 / 2 : ℚ) ≤ samplePointOf t ∧ samplePointOf t < 1 ∧
      1 ≤ t.prop_seg ∧ 1 ≤ t.phase_seg1 ∧ 1 ≤ t.phase_seg2 ∧
      t.sjw = min candleCaps.sjw_max t.phase_seg2 := by
  fin_cases hb
  · exact Or.inr (calc_returns_good 10000 candleCaps (by norm_num) (by decide) (by decide)
      (300, 13, 2) (mem_btCandidates.mpr (by decide))
      { prop_seg := 7, phase_seg1 := 6, phase_seg2 := 2, sjw := 2, brp := 300 }
      (0, 6144000000) (by decide) (by norm_num [fracQ]))
  · exact Or.inr (calc_returns_good 20000 candleCaps (by norm_num) (by decide) (by decide)
      (150, 13, 2) (mem_btCandidates.mpr (by decide))
      { prop_seg := 7, phase_seg1 := 6, phase_seg2 := 2, sjw := 2, brp := 150 }
      (0, 6144000000) (by decide) (by norm_num [fracQ]))
  · exact Or.inr (calc_returns_good 50000 candleCaps (by norm_num) (by decide) (by decide)
      (60, 13, 2) (mem_btCandidates.mpr (by decide))
      { prop_seg := 7, phase_seg1 := 6, phase_seg2 := 2, sjw := 2, brp := 60 }
      (0, 6144000000) (by decide) (by norm_num [fracQ]))
  · exact Or.inr (calc_returns_good 100000 candleCaps (by norm_num) (by decide) (by decide)
      (30, 13, 2) (mem_btCandidates.mpr (by decide))
      { prop_seg := 7, phase_seg1 := 6, phase_seg2 := 2, sjw := 2, brp := 30 }
      (0, 6144000000) (by decide) (by norm_num [fracQ]))
  · exact Or.inr (calc_returns_good 125000 candleCaps (by norm_num) (by decide) (by decide)
      (24, 13, 2) (mem_btCandidates.mpr (by decide))
      { prop_seg := 7, phase_seg1 := 6, phase_seg2 := 2, sjw := 2, brp := 24 }
      (0, 6144000000) (by decide) (by norm_num [fracQ]))
  · exact Or.inr (calc_returns_good 250000 candleCaps (by norm_num) (by decide) (by decide)
      (12, 13, 2) (mem_btCandidates.mpr (by decide))
      { prop_seg := 7, phase_seg1 := 6, phase_seg2 := 2, sjw := 2, brp := 12 }
      (0, 6144000000) (by decide) (by norm_num [fracQ]))
  · exact Or.inr (calc_returns_good 500000 candleCaps (by norm_num) (by decide) (by decide)
      (6, 13, 2) (mem_btCandidates.mpr (by decide))
      { prop_seg := 7, phase_seg1 := 6, phase_seg2 := 2, sjw := 2, brp := 6 }
      (0, 6144000000) (by decide) (by norm_num [fracQ]))
  · exact Or.inr (calc_returns_good 800000 candleCaps (by norm_num) (by decide) (by decide)
      (4, 12, 2) (mem_btCandidates.mpr (by decide))
      { prop_seg := 6, phase_seg1 := 6, phase_seg2 := 2, sjw := 2, brp := 4 }
      (48000000, 5760000000) (by decide) (by norm_num [fracQ]))
  · exact Or.inr (calc_returns_good 1000000 candleCaps (by norm_num) (by decide) (by decide)
      (3, 13, 2) (mem_btCandidates.mpr (by decide))
      { prop_seg := 7, phase_seg1 := 6, phase_seg2 := 2, sjw := 2, brp := 3 }
      (0, 6144000000) (by decide) (by norm_num [fracQ]))

/-- Witness for C2, at bitrate 500000. -/
theorem c2_bit_timing_solver_bounds_witness :
    (500000 ∈ [10000, 20000, 50000, 100000, 125000, 250000, 500000, 800000, 1000000]) ∧
    (calc_bit_timing 500000 candleCaps = none ∨
     ∃ t, calc_bit_timing 500000 candleCaps = some t ∧
       rateErrorOf 500000 candleCaps t ≤ 1 / 20 ∧
       (1 / 2 : ℚ) ≤ samplePointOf t ∧ samplePointOf t < 1 ∧
       1 ≤ t.prop_seg ∧ 1 ≤ t.phase_seg1 ∧ 1 ≤ t.phase_seg2 ∧
       t.sjw = min candleCaps.sjw_max t.phase_seg2) :=
  ⟨by decide, c2_bit_timing_solver_bounds 500000 (by decide)⟩

/-- C8 (counterexample): with fclk 48 MHz, target 500000 and the search
restricted to brp = 12, the solver does **not** return the claimed
solution `phase_seg1 = 3, prop_seg = 4, phase_seg2 = 1, sjw = 1`. -/
theorem c8_brp12_claimed_solution_refuted :
    calc_bit_timing 500000 candleCapsBrp12 ≠
      some { prop_seg := 4, phase_seg1 := 3, phase_seg2 := 1, sjw := 1, brp := 12 } := by
  decide

/-- C8 (amended): with fclk 48 MHz, target 500000 and the search restricted
to brp = 12 (total_tq = 8 and the best split tseg1 = 6, tseg2 = 1), the
solver returns `prop_seg = 3, phase_seg1 = 3, phase_seg2 = 1, sjw = 1`
(the derivation `phase_seg1 = tseg1/2 = 3`, `prop_seg = tseg1 − phase_seg1 = 3`
splits tseg1 = 6, so `prop_seg` is 3, not 4). -/
theorem c8_brp12_solution :
    calc_bit_timing 500000 candleCapsBrp12 =
      some { prop_seg := 3, phase_seg1 := 3, phase_seg2 := 1, sjw := 1, brp := 12 } := by
  decide

/-! ### gs_usb RX parsing: claims C1 and C4 -/

/-- C1 (counterexample): parsing the 15-byte S2 accumulator with timestamps
and padding disabled does **not** report 15 bytes consumed — the parser
emits the expected frame but reports 20 bytes consumed (header plus the
8-byte aligned payload area). -/
theorem c1_s2_fifteen_consumed_refuted :
    (parse_host_frame_at s2Bytes 0 false none 0 false).1 ≠
      GsParseResult.ok (some s2Frame) 15 := by
  decide

/-- C1 (amended): parsing the 15-byte S2 accumulator (echo 0xFFFFFFFF,
id 0x123, dlc 3, chan 0) with timestamps and padding disabled yields
exactly the standard frame `{id 0x123, data [DE AD BE]}`, but reports
20 bytes consumed — five more than are available in the accumulator. -/
theorem c1_s2_parse_result :
    (parse_host_frame_at s2Bytes 0 false none 0 false).1 =
      GsParseResult.ok (some s2Frame) 20 := by
  decide

/-- C4: the parser can return a consumed count that exceeds the number of
bytes available: on the 15-byte S2 accumulator (12-byte header plus a
partially received 8-byte aligned payload area) it returns a result with
`consumed = 20 > 15`, so the event loop's subsequent
`rx_buffer.drain(..consumed)` is out of bounds. -/
theorem c4_consumed_exceeds_available :
    (parse_host_frame_at s2Bytes 0 false none 0 false).1 =
      GsParseResult.ok (some s2Frame) 20 ∧
    s2Bytes.length = 15 ∧ 15 < 20 := by
  refine ⟨by decide, by decide, by decide⟩

/-- Bitwise-or of a multiple of `2^k` with a value below `2^k` is addition. -/
lemma lor_eq_add_of_mod {a b k : ℕ} (ha : a % 2 ^ k = 0) (hb : b < 2 ^ k) :
    a ||| b = a + b := by
  obtain ⟨q, rfl⟩ := Nat.dvd_of_mod_eq_zero ha
  exact (Nat.mul_add_lt_is_or hb q).symm

/-- Arithmetic form of one extension step from a decomposed state. -/
lemma ts64Step_eq (D p t : ℕ) (hp : p < 2 ^ 32) (ht : t < 2 ^ 32) :
    ts64Step (some (2 ^ 32 * D + p)) t =
      if t < p then 2 ^ 32 * ((D + 1) % 2 ^ 32) + t else 2 ^ 32 * D + t := by
  rw [ts64Step]
  have hprev32 : (2 ^ 32 * D + p) % 2 ^ 32 = p := by
    rw [Nat.mul_add_mod, Nat.mod_eq_of_lt hp]
  rw [hprev32]
  have hbase : 2 ^ 32 * D + p - p = 2 ^ 32 * D := by omega
  rw [hbase]
  by_cases htp : t < p
  · rw [if_pos htp, if_pos htp]
    have h1 : 2 ^ 32 * D + 2 ^ 32 = 2 ^ 32 * (D + 1) := by ring
    have h2 : (2 : ℕ) ^ 64 = 2 ^ 32 * 2 ^ 32 := by norm_num
    rw [h1, h2, Nat.mul_mod_mul_left]
    exact lor_eq_add_of_mod (Nat.mul_mod_right _ _) ht
  · rw [if_neg htp, if_neg htp]
    exact lor_eq_add_of_mod (Nat.mul_mod_right _ _) ht

/-- Main induction for C6: from a decomposed state, as long as the number
of remaining strict decreases keeps the upper word below `2^32`, the output
sequence is a nondecreasing chain and congruent to the inputs mod `2^32`. -/
lemma ts64_go : ∀ (l : List ℕ) (D p : ℕ), (∀ t ∈ l, t < 2 ^ 32) → p < 2 ^ 32 →
    D + decCount (p :: l) < 2 ^ 32 →
    List.Chain' (· ≤ ·) ((2 ^ 32 * D + p) :: ts64Outputs (some (2 ^ 32 * D + p)) l) ∧
    List.Forall₂ (fun o t => o % 2 ^ 32 = t) (ts64Outputs (some (2 ^ 32 * D + p)) l) l
  | [], D, p, _, _, _ => by
    constructor
    · exact List.chain'_singleton _
    · simp [ts64Outputs]
  | t :: rest, D, p, hl, hp, hD => by
    have ht : t < 2 ^ 32 := hl t (List.mem_cons_self _ _)
    have hrest : ∀ x ∈ rest, x < 2 ^ 32 := fun x hx => hl x (List.mem_cons_of_mem _ hx)
    rw [ts64Outputs]
    by_cases htp : t < p
    · have hdec : decCount (p :: t :: rest) = 1 + decCount (t :: rest) := by
        rw [decCount, if_pos htp]
      have hD1 : (D + 1) + decCount (t :: rest) < 2 ^ 32 := by omega
      have hmod : (D + 1) % 2 ^ 32 = D + 1 := Nat.mod_eq_of_lt (by omega)
      have hstep : ts64Step (some (2 ^ 32 * D + p)) t = 2 ^ 32 * (D + 1) + t := by
        rw [ts64Step_eq D p t hp ht, if_pos htp, hmod]
      rw [hstep]
      obtain ⟨hchain, hfa⟩ := ts64_go rest (D + 1) t hrest ht hD1
      refine ⟨List.chain'_cons.mpr ⟨by omega, hchain⟩, List.forall₂_cons.mpr ⟨?_, hfa⟩⟩
      rw [Nat.mul_add_mod, Nat.mod_eq_of_lt ht]
    · have hdec : decCount (p :: t :: rest) = decCount (t :: rest) := by
        rw [decCount, if_neg htp]
        omega
      have hD1 : D + decCount (t :: rest) < 2 ^ 32 := by omega
      have hstep : ts64Step (some (2 ^ 32 * D + p)) t = 2 ^ 32 * D + t := by
        rw [ts64Step_eq D p t hp ht, if_neg htp]
      rw [hstep]
      obtain ⟨hchain, hfa⟩ := ts64_go rest D t hrest ht hD1
      refine ⟨List.chain'_cons.mpr ⟨by omega, hchain⟩, List.forall₂_cons.mpr ⟨?_, hfa⟩⟩
      rw [Nat.mul_add_mod, Nat.mod_eq_of_lt ht]

/-- C6 (amended): iterating the gs_usb 32→64-bit timestamp extension from an
unset state over any sequence of 32-bit inputs in which fewer than `2^32`
strict decreases occur (so the wrapping `u64` upper-word addition never
overflows) produces a monotonically nondecreasing output sequence, each
output congruent to its input modulo `2^32`. -/
theorem c6_ts_extension_monotone (l : List ℕ) (hl : ∀ t ∈ l, t < 2 ^ 32)
    (hd : decCount l < 2 ^ 32) :
    List.Chain' (· ≤ ·) (ts64Outputs none l) ∧
    List.Forall₂ (fun o t => o % 2 ^ 32 = t) (ts64Outputs none l) l := by
  cases l with
  | nil => exact ⟨List.chain'_nil, List.Forall₂.nil⟩
  | cons t rest =>
    have ht : t < 2 ^ 32 := hl t (List.mem_cons_self _ _)
    have hrest : ∀ x ∈ rest, x < 2 ^ 32 := fun x hx => hl x (List.mem_cons_of_mem _ hx)
    have hhead : ts64Outputs none (t :: rest) = t :: ts64Outputs (some t) rest := by
      rw [ts64Outputs]
      rfl
    obtain ⟨hchain, hfa⟩ := ts64_go rest 0 t hrest ht (by omega)
    rw [hhead]
    have hzero : 2 ^ 32 * 0 + t = t := by omega
    rw [hzero] at hchain hfa
    exact ⟨hchain, List.forall₂_cons.mpr ⟨Nat.mod_eq_of_lt ht, hfa⟩⟩

lemma tsWrapSeq_elem : ∀ (k : ℕ), ∀ t ∈ tsWrapSeq k, t ≤ 1
  | 0, t, ht => absurd ht (List.not_mem_nil t)
  | k + 1, t, ht => by
    rw [tsWrapSeq, List.mem_append] at ht
    rcases ht with h | h
    · exact tsWrapSeq_elem k t h
    · simp only [List.mem_cons, List.not_mem_nil, or_false] at h
      rcases h with rfl | rfl <;> omega

lemma ts64Outputs_append (l₁ : List ℕ) : ∀ (last : Option ℕ) (l₂ : List ℕ),
    ts64Outputs last (l₁ ++ l₂) =
      ts64Outputs last l₁ ++ ts64Outputs (ts64StateAfter last l₁) l₂ := by
  induction l₁ with
  | nil => intro last l₂; rfl
  | cons t rest ih =>
    intro last l₂
    rw [List.cons_append, ts64Outputs, ts64Outputs, ih, List.cons_append]
    rfl

lemma ts64StateAfter_append (l₁ l₂ : List ℕ) (last : Option ℕ) :
    ts64StateAfter last (l₁ ++ l₂) = ts64StateAfter (ts64StateAfter last l₁) l₂ := by
  rw [ts64StateAfter, List.foldl_append]
  rfl

/-- State after `k ≥ 1` wrap pairs: the upper word has advanced `k` times
(wrapping at `2^64`). -/
lemma ts64State_tsWrapSeq : ∀ (k : ℕ), 1 ≤ k → k ≤ 2 ^ 32 →
    ts64StateAfter none (tsWrapSeq k) = some ((2 ^ 32 * k) % 2 ^ 64)
  | 0, h1, _ => absurd h1 (by omega)
  | 1, _, _ => by
    rw [show tsWrapSeq 1 = [1, 0] from rfl, ts64StateAfter]
    simp only [List.foldl_cons, List.foldl_nil]
    have hstep1 : ts64Step (some (ts64Step none 1)) 0 = 2 ^ 32 := by
      have h := ts64Step_eq 0 1 0 (by norm_num) (by norm_num)
      rw [if_pos (by norm_num : (0 : ℕ) < 1)] at h
      norm_num at h
      exact h
    rw [hstep1]
    norm_num
  | k + 2, _, hk => by
    have hk1 : k + 1 ≤ 2 ^ 32 := by omega
    have hlt : k + 1 < 2 ^ 32 := by omega
    rw [tsWrapSeq, ts64StateAfter_append,
      ts64State_tsWrapSeq (k + 1) (by omega) hk1]
    have hmodid : (2 ^ 32 * (k + 1)) % 2 ^ 64 = 2 ^ 32 * (k + 1) := by
      apply Nat.mod_eq_of_lt
      have h64 : (2 : ℕ) ^ 64 = 2 ^ 32 * 2 ^ 32 := by norm_num
      rw [h64]
      exact (Nat.mul_lt_mul_left (by positivity)).mpr hlt
    rw [hmodid]
    have hs1 : ts64Step (some (2 ^ 32 * (k + 1))) 1 = 2 ^ 32 * (k + 1) + 1 := by
      have h := ts64Step_eq (k + 1) 0 1 (by norm_num) (by norm_num)
      rw [if_neg (by omega)] at h
      simpa using h
    have hs2 : ts64Step (some (2 ^ 32 * (k + 1) + 1)) 0
        = 2 ^ 32 * ((k + 2) % 2 ^ 32) := by
      have h := ts64Step_eq (k + 1) 1 0 (by norm_num) (by norm_num)
      rw [if_pos (by omega)] at h
      simpa using h
    rw [ts64StateAfter]
    simp only [List.foldl_cons, List.foldl_nil]
    rw [hs1, hs2]
    have h64 : (2 : ℕ) ^ 64 = 2 ^ 32 * 2 ^ 32 := by norm_num
    rw [h64, Nat.mul_mod_mul_left]

set_option linter.constructorNameAsVariable false in
/-- C6 (counterexample): the claim fails as stated over arbitrary 32-bit
input sequences: after `2^32` wrap events the wrapping `u64` upper-word
addition overflows, and the output sequence of `tsWrapSeq (2^32)`
(the pair `1, 0` repeated `2^32` times) decreases at its last step. -/
theorem c6_ts_extension_wrap_refuted :
    ¬ ((∀ t ∈ tsWrapSeq (2 ^ 32), t < 2 ^ 32) →
        List.Chain' (· ≤ ·) (ts64Outputs none (tsWrapSeq (2 ^ 32))) ∧
        List.Forall₂ (fun o t => o % 2 ^ 32 = t)
          (ts64Outputs none (tsWrapSeq (2 ^ 32))) (tsWrapSeq (2 ^ 32))) := by
  intro hclaim
  obtain ⟨hchain, -⟩ := hclaim (fun t ht => by
    have := tsWrapSeq_elem (2 ^ 32) t ht
    omega)
  have hsplit : tsWrapSeq (2 ^ 32) = tsWrapSeq (2 ^ 32 - 1) ++ [1, 0] := by
    conv_lhs => rw [show (2 : ℕ) ^ 32 = (2 ^ 32 - 1) + 1 from by omega]
    rw [tsWrapSeq]
  have hstate : ts64StateAfter none (tsWrapSeq (2 ^ 32 - 1))
      = some (2 ^ 32 * (2 ^ 32 - 1)) := by
    rw [ts64State_tsWrapSeq (2 ^ 32 - 1) (by norm_num) (by omega)]
    congr 1
  have houts : ts64Outputs none (tsWrapSeq (2 ^ 32))
      = ts64Outputs none (tsWrapSeq (2 ^ 32 - 1))
        ++ [2 ^ 32 * (2 ^ 32 - 1) + 1, 0] := by
    rw [hsplit, ts64Outputs_append, hstate]
    congr 1
  rw [houts] at hchain
  have hpair : List.Chain' (· ≤ ·) [2 ^ 32 * (2 ^ 32 - 1) + 1, 0] :=
    hchain.sublist (List.sublist_append_right _ _)
  have hle : 2 ^ 32 * (2 ^ 32 - 1) + 1 ≤ 0 := (List.chain'_cons.mp hpair).1
  omega

/-- Witness for the amended C6 theorem, at the input sequence `[5, 3, 7]`. -/
theorem c6_ts_extension_monotone_witness :
    (∀ t ∈ [5, 3, 7], t < 2 ^ 32) ∧ decCount [5, 3, 7] < 2 ^ 32 ∧
    (List.Chain' (· ≤ ·) (ts64Outputs none [5, 3, 7]) ∧
     List.Forall₂ (fun o t => o % 2 ^ 32 = t) (ts64Outputs none [5, 3, 7]) [5, 3, 7]) :=
  ⟨by decide, by decide, c6_ts_extension_monotone [5, 3, 7] (by decide) (by decide)⟩

/-- C3: the SLCAN line parser does **not** return normally on every
completed carriage-return-terminated line: a `t` line shorter than 5 bytes
(here `t\r`) and a `T` line shorter than 10 bytes (here `T1\r`) make the
Rust code index `line[4]` / `line[9]` out of bounds in the `has_timestamp`
computation and panic (`none` is the embedding's panic marker) instead of
dropping the line. -/
theorem c3_short_line_panics :
    parse_slcan_line_bytes 0 [116, 13] = none ∧
    parse_slcan_line_bytes 0 [84, 49, 13] = none := by decide

/-- C9: feeding the stream `t1230\r J\r t1230FFFFFFFF\r` (timestamps
enabled, high word initially 0) through the `read_frames` loop: the `J`
line increments `timestamp_high` to 1 and emits no frame, and the second
emitted frame carries timestamp `(1 <<< 32) ||| 0xFFFFFFFF`. -/
theorem c9_s5_timestamp_rollover :
    parse_slcan_line_bytes 0 [74, 13] = some (none, 1) ∧
    slcan_read_frames 0 s5Bytes = some ([s5Frame1, s5Frame2], 1) ∧
    s5Frame2.timestamp = some ((1 <<< 32) ||| 0xFFFFFFFF) := by decide

/-- C7 (counterexample): an SLCAN session with no configured bitrate opens
its channel successfully (writing `O\r`) rather than failing with
InvalidInput. -/
theorem c7_slcan_opens_without_bitrate :
    slcan_open_channel slcanNoBitrate = .ok [79, 13] ∧
    slcan_open_channel slcanNoBitrate ≠ .error IoErrorKind.invalidInput :=
  ⟨rfl, fun h => Except.noConfusion h⟩

/-- C7 (amended): for every gs_usb driver session on which `set_bitrate`
has not completed successfully (`configured_bitrate` unset), `open_channel`
fails with InvalidInput and issues no MODE transfer; the SLCAN driver
performs no such check (see the counterexample). -/
theorem c7_gs_usb_open_channel_guard (s : GsSessionState)
    (h : s.configured_bitrate = none) :
    gs_usb_open_channel s = .error IoErrorKind.invalidInput := by
  rw [gs_usb_open_channel, if_pos h]

/-- Witness for the amended C7 theorem. -/
theorem c7_gs_usb_open_channel_guard_witness :
    gsNoBitrate.configured_bitrate = none ∧
    gs_usb_open_channel gsNoBitrate = .error IoErrorKind.invalidInput :=
  ⟨rfl, c7_gs_usb_open_channel_guard gsNoBitrate rfl⟩

/-- C10 (counterexample): the inbound IPC→CAN path does not carry
length-prefixed messages: the chunk `[0, 1]` — which under the claimed
framing would declare a 0-byte payload followed by one stray byte — is
forwarded unchanged as a message and handed whole to the frame decoder,
which may decode it and send a frame. -/
theorem c10_inbound_not_length_prefixed :
    [0, 1] ∈ ipc_reader_messages [[0, 1]] ∧ ¬ wellFramed [0, 1] ∧
    forward_pipe_to_can cDecode (ipc_reader_messages [[0, 1]]) = [cDecodeFrame] := by
  refine ⟨by decide, ?_, by decide⟩
  rintro ⟨n, p, heq, hlen⟩
  rw [List.cons.injEq] at heq
  obtain ⟨h1, h2⟩ := heq
  subst h1
  subst h2
  simp at hlen

/-- C10 (amended): every outbound CAN→IPC message consists of one length
byte equal to the bincode payload's length (at most 255) followed by
exactly that payload, and a frame whose serialization exceeds 255 bytes is
dropped and never sent; the inbound path applies no length-prefix framing
(see the counterexample). -/
theorem c10_outbound_length_prefixed (encode : CanFrame → Option (List ℕ))
    (frames : List CanFrame) :
    (∀ m ∈ forward_can_to_pipe encode frames,
        ∃ p, m = p.length :: p ∧ p.length ≤ 255) ∧
    (∀ f data, encode f = some data → 255 < data.length →
        (data.length :: data) ∉ forward_can_to_pipe encode frames) := by
  constructor
  · intro m hm
    rw [forward_can_to_pipe, List.mem_filterMap] at hm
    obtain ⟨f, -, hf⟩ := hm
    cases he : encode f with
    | none =>
      simp only [he] at hf
      exact Option.noConfusion hf
    | some data =>
      simp only [he] at hf
      by_cases hlen : 255 < data.length
      · rw [if_pos hlen] at hf
        simp at hf
      · rw [if_neg hlen] at hf
        rw [Option.some_inj] at hf
        exact ⟨data, hf.symm, by omega⟩
  · intro f data he hlen hmem
    rw [forward_can_to_pipe, List.mem_filterMap] at hmem
    obtain ⟨g, -, hg⟩ := hmem
    cases hge : encode g with
    | none =>
      simp only [hge] at hg
      exact Option.noConfusion hg
    | some d2 =>
      simp only [hge] at hg
      by_cases hl2 : 255 < d2.length
      · rw [if_pos hl2] at hg
        simp at hg
      · rw [if_neg hl2] at hg
        rw [Option.some_inj, List.cons.injEq] at hg
        obtain ⟨-, hds⟩ := hg
        subst hds
        omega

/-- C5 (counterexample): the SLCAN round-trip fails for classical remote
(RTR) frames: the TX encoder emits `t0011\r` for a standard RTR frame with
dlc 1 (it writes no `r`/`R` command and no data bytes), and the parser
drops that line as too short for its dlc, recovering no frame at all. -/
theorem c5_roundtrip_rtr_refuted :
    slcan_send_frame rtrFrame = [116, 48, 48, 49, 49, 13] ∧
    parse_slcan_line_bytes 0 (slcan_send_frame rtrFrame) = some (none, 0) := by
  decide

/-! ### Hex round-trip lemmas for the SLCAN encoder (claim C5) -/

lemma hexVal_hexDigUp : ∀ x, x < 16 → hexVal (hexDigUp x) = some x := by decide

lemma hexDigUp_ge : ∀ x, 48 ≤ hexDigUp x := by
  intro x
  rw [hexDigUp]
  split <;> omega

lemma parseRadix16Acc_append (B : ℕ) : ∀ (l₁ l₂ : List ℕ) (acc : ℕ),
    parseRadix16Acc B acc (l₁ ++ l₂) =
      match parseRadix16Acc B acc l₁ with
      | none => none
      | some v => parseRadix16Acc B v l₂
  | [], l₂, acc => rfl
  | b :: rest, l₂, acc => by
    rw [List.cons_append]
    simp only [parseRadix16Acc]
    cases hexVal b with
    | none => rfl
    | some d =>
      simp only [Option.some_bind]
      by_cases hlt : acc * 16 + d < B
      · rw [if_pos hlt, if_pos hlt]
        exact parseRadix16Acc_append B rest l₂ (acc * 16 + d)
      · rw [if_neg hlt, if_neg hlt]

lemma parseRadix16Acc_toHexAux (B : ℕ) : ∀ (fuel n acc : ℕ), n < fuel →
    acc * 16 ^ (toHexDigitsAux fuel n).length + n < B →
    parseRadix16Acc B acc (toHexDigitsAux fuel n)
      = some (acc * 16 ^ (toHexDigitsAux fuel n).length + n)
  | 0, n, acc, hfuel, _ => absurd hfuel (by omega)
  | fuel + 1, n, acc, hfuel, hB => by
    rw [toHexDigitsAux] at hB ⊢
    by_cases h16 : n < 16
    · rw [if_pos h16] at hB ⊢
      simp only [List.length_cons, List.length_nil, pow_one] at hB ⊢
      simp only [parseRadix16Acc, hexVal_hexDigUp n h16, Option.some_bind]
      rw [if_pos (by omega : acc * 16 + n < B)]
      norm_num
    · rw [if_neg h16] at hB ⊢
      have hsub : n / 16 < fuel := by omega
      have hlen : (toHexDigitsAux fuel (n / 16) ++ [hexDigUp (n % 16)]).length
          = (toHexDigitsAux fuel (n / 16)).length + 1 := by
        simp
      rw [hlen] at hB ⊢
      have hApow : acc * 16 ^ ((toHexDigitsAux fuel (n / 16)).length + 1)
          = acc * 16 ^ (toHexDigitsAux fuel (n / 16)).length * 16 := by
        ring
      rw [hApow] at hB ⊢
      have hsubB : acc * 16 ^ (toHexDigitsAux fuel (n / 16)).length + n / 16 < B := by
        omega
      rw [parseRadix16Acc_append, parseRadix16Acc_toHexAux B fuel (n / 16) acc hsub hsubB]
      simp only [parseRadix16Acc, hexVal_hexDigUp (n % 16) (by omega : n % 16 < 16),
        Option.some_bind]
      rw [if_pos (by omega :
        (acc * 16 ^ (toHexDigitsAux fuel (n / 16)).length + n / 16) * 16 + n % 16 < B)]
      congr 1
      omega

lemma parseRadix16Acc_replicate_zero (B : ℕ) (hB : 0 < B) :
    ∀ (k : ℕ) (l : List ℕ),
    parseRadix16Acc B 0 (List.replicate k 48 ++ l) = parseRadix16Acc B 0 l
  | 0, l => rfl
  | k + 1, l => by
    rw [List.replicate_succ, List.cons_append]
    simp only [parseRadix16Acc]
    have h48 : hexVal 48 = some 0 := rfl
    rw [h48]
    simp only [Option.some_bind]
    rw [if_pos (by omega : 0 * 16 + 0 < B)]
    have hz : 0 * 16 + 0 = 0 := by omega
    rw [hz]
    exact parseRadix16Acc_replicate_zero B hB k l

lemma toHexDigitsAux_elem : ∀ (fuel n b : ℕ), b ∈ toHexDigitsAux fuel n → 48 ≤ b
  | 0, n, b, hb => absurd hb (List.not_mem_nil b)
  | fuel + 1, n, b, hb => by
    rw [toHexDigitsAux] at hb
    by_cases h16 : n < 16
    · rw [if_pos h16] at hb
      simp only [List.mem_singleton] at hb
      subst hb
      exact hexDigUp_ge n
    · rw [if_neg h16] at hb
      rw [List.mem_append] at hb
      rcases hb with hb | hb
      · exact toHexDigitsAux_elem fuel (n / 16) b hb
      · simp only [List.mem_singleton] at hb
        subst hb
        exact hexDigUp_ge (n % 16)

lemma formatHex_elem {w n b : ℕ} (hb : b ∈ formatHex w n) : 48 ≤ b := by
  rw [formatHex, padZeros, List.mem_append] at hb
  rcases hb with hb | hb
  · rw [List.eq_of_mem_replicate hb]
  · exact toHexDigitsAux_elem (n + 1) n b hb

lemma formatHex_ne_nil (w n : ℕ) : formatHex w n ≠ [] := by
  rw [formatHex, padZeros]
  intro h
  rw [List.append_eq_nil] at h
  obtain ⟨-, h2⟩ := h
  rw [toHexDigits, toHexDigitsAux] at h2
  split at h2 <;> simp at h2

/-- Parsing the uppercase zero-padded hex rendering of `n` recovers `n`
whenever `n` is below the parser's overflow bound. -/
lemma parseRadix16_formatHex (B w n : ℕ) (hB : 0 < B) (hn : n < B) :
    parseRadix16 B (formatHex w n) = some n := by
  have hval : parseRadix16Acc B 0 (formatHex w n) = some n := by
    rw [formatHex, padZeros, parseRadix16Acc_replicate_zero B hB]
    have h := parseRadix16Acc_toHexAux B (n + 1) n 0 (by omega)
      (by simpa using hn)
    simpa using h
  cases hformat : formatHex w n with
  | nil => exact absurd hformat (formatHex_ne_nil w n)
  | cons b rest =>
    have hb48 : 48 ≤ b := formatHex_elem (hformat ▸ List.mem_cons_self b rest)
    rw [parseRadix16, if_neg (by omega : ¬ b = 43)]
    rw [← hformat, hval]

lemma toHexDigitsAux_len_le : ∀ (fuel w n : ℕ), n < fuel → 0 < w → n < 16 ^ w →
    (toHexDigitsAux fuel n).length ≤ w
  | 0, w, n, hfuel, _, _ => absurd hfuel (by omega)
  | fuel + 1, w, n, hfuel, hw, hn => by
    rw [toHexDigitsAux]
    by_cases h16 : n < 16
    · rw [if_pos h16]
      simpa using hw
    · rw [if_neg h16]
      have hw2 : 2 ≤ w := by
        by_contra hcon
        have hw1 : w = 1 := by omega
        rw [hw1, pow_one] at hn
        omega
      have hsub : n / 16 < 16 ^ (w - 1) := by
        rw [Nat.div_lt_iff_lt_mul (by omega : 0 < 16)]
        calc n < 16 ^ w := hn
          _ = 16 ^ (w - 1) * 16 := by
            rw [← pow_succ]
            congr 1
            omega
      have := toHexDigitsAux_len_le fuel (w - 1) (n / 16) (by omega) (by omega) hsub
      simp only [List.length_append, List.length_cons, List.length_nil]
      omega

lemma formatHex_length {w n : ℕ} (h0 : 0 < w) (h : n < 16 ^ w) :
    (formatHex w n).length = w := by
  rw [formatHex, padZeros, List.length_append, List.length_replicate]
  have := toHexDigitsAux_len_le (n + 1) w n (by omega) h0 h
  rw [toHexDigits]
  omega

lemma length_dataHex : ∀ (data : List ℕ), (∀ b ∈ data, b < 256) →
    (data.flatMap (fun b => formatHex 2 b)).length = 2 * data.length
  | [], _ => rfl
  | b :: bs, h => by
    rw [List.flatMap_cons, List.length_append,
      formatHex_length (by omega) (by
        have := h b (List.mem_cons_self _ _)
        omega),
      length_dataHex bs (fun x hx => h x (List.mem_cons_of_mem _ hx))]
    simp only [List.length_cons]
    ring

lemma parseDataPairs_roundtrip : ∀ (data tail : List ℕ), (∀ b ∈ data, b < 256) →
    parseDataPairs (data.flatMap (fun b => formatHex 2 b) ++ tail) data.length
      = some data
  | [], tail, _ => by simp [parseDataPairs]
  | b :: bs, tail, h => by
    have hb : b < 256 := h b (List.mem_cons_self _ _)
    have hrest : ∀ x ∈ bs, x < 256 := fun x hx => h x (List.mem_cons_of_mem _ hx)
    have h2 : (formatHex 2 b).length = 2 := formatHex_length (by omega) (by omega)
    obtain ⟨d1, d2, hd⟩ := List.length_eq_two.mp h2
    rw [List.flatMap_cons, hd]
    simp only [List.cons_append, List.nil_append, List.append_assoc, List.length_cons]
    rw [parseDataPairs]
    have hpair : parseRadix16 (2 ^ 8) [d1, d2] = some b := by
      rw [← hd]
      exact parseRadix16_formatHex (2 ^ 8) 2 b (by omega) (by omega)
    simp only [hpair, parseDataPairs_roundtrip bs tail hrest]

lemma digit10_add48 {n : ℕ} (h : n ≤ 9) : digit10 (48 + n) = some n := by
  rw [digit10, if_pos (by omega)]
  congr 1
  omega

lemma slcan_roundtrip_std (ts id : ℕ) (data : List ℕ) (hid : id < 2 ^ 11)
    (hlen : data.length ≤ 8) (hdata : ∀ b ∈ data, b < 256) :
    parse_slcan_line_bytes ts
      (116 :: (formatHex 3 id ++ ([48 + data.length] ++
        (data.flatMap (fun b => formatHex 2 b) ++ [13]))))
      = some (some { id := id, extended := false, rtr := false, error := false,
                     dlc := data.length, data := data, timestamp := none }, ts) := by
  have hA : (formatHex 3 id).length = 3 :=
    formatHex_length (by norm_num) (lt_trans hid (by norm_num))
  have hDH : (data.flatMap (fun b => formatHex 2 b)).length = 2 * data.length :=
    length_dataHex data hdata
  set L := data.length with hL
  set DH := data.flatMap (fun b => formatHex 2 b) with hDHdef
  set T := formatHex 3 id ++ ([48 + L] ++ (DH ++ [13])) with hT
  have hTlen : T.length = 5 + 2 * L := by
    rw [hT]
    simp only [List.length_append, List.length_cons, List.length_nil, hA, hDH]
    omega
  have hsplit4 : 116 :: T = (116 :: formatHex 3 id) ++ ([48 + L] ++ (DH ++ [13])) := by
    rw [hT]
    simp [List.cons_append, List.append_assoc]
  have hget4 : (116 :: T).getD 4 0 = 48 + L := by
    rw [hsplit4, List.getD_append_right _ _ _ _ (by simp [hA]), ]
    simp [hA]
  have hslice : sliceRange (116 :: T) 1 4 = formatHex 3 id := by
    rw [sliceRange]
    simp only [List.drop_succ_cons, List.drop_zero, hT]
    rw [show (4 - 1 : ℕ) = (formatHex 3 id).length from by omega]
    exact List.take_left _ _
  have hsplit5 : 116 :: T = (116 :: (formatHex 3 id ++ [48 + L])) ++ (DH ++ [13]) := by
    rw [hT]
    simp [List.cons_append, List.append_assoc]
  have hdrop5 : (116 :: T).drop 5 = DH ++ [13] := by
    rw [hsplit5]
    rw [show (5 : ℕ) = (116 :: (formatHex 3 id ++ [48 + L])).length from by simp [hA]]
    exact List.drop_left _ _
  have hLen6 : (116 :: T).length = 6 + 2 * L := by
    simp only [List.length_cons, hTlen]
    omega
  have hc1 : (1 < (6 + 2 * L)) = True := eq_true (by omega)
  have hc3 : ((6 + 2 * L) ≤ 4) = False := eq_false (by omega)
  have hts : ((6 + 2 * L) = 5 + L * 2 + 8 + 1) = False := eq_false (by omega)
  have hc5 : ((6 + 2 * L) < 5) = False := eq_false (by omega)
  have hguard : ((6 + 2 * L) < 5 + L * 2) = False := eq_false (by omega)
  have hdigit : digit10 (48 + L) = some L := digit10_add48 (by omega)
  have hpairs : parseDataPairs (DH ++ [13]) L = some data :=
    parseDataPairs_roundtrip data [13] hdata
  have hid' : id ≤ 0x7FF := by omega
  have hldlc : lenToDlc data.length = some data.length := by
    rw [lenToDlc, if_pos hlen]
  have hnew : CanFrame.new id data =
      some { id := id, extended := false, rtr := false, error := false,
             dlc := data.length, data := data, timestamp := none } := by
    simp only [CanFrame.new, hldlc]
    rw [if_pos hid']
  have hhex : parseRadix16 (2 ^ 32) (formatHex 3 id) = some id :=
    parseRadix16_formatHex (2 ^ 32) 3 id (by norm_num) (lt_trans hid (by norm_num))
  simp only [parse_slcan_line_bytes, hLen6, hc1, hc3, hts, hc5, hguard, hdigit,
    hget4, hslice, hdrop5, parse_hex_u32, hhex, ite_true, ite_false,
    eq_self_iff_true, decide_False, Bool.false_eq_true, false_and,
    parse_slcan_frame_tail, hpairs, hnew, CanFrame.set_timestamp]

lemma slcan_roundtrip_ext (ts id : ℕ) (data : List ℕ) (hid : id < 2 ^ 29)
    (hlen : data.length ≤ 8) (hdata : ∀ b ∈ data, b < 256) :
    parse_slcan_line_bytes ts
      (84 :: (formatHex 8 id ++ ([48 + data.length] ++
        (data.flatMap (fun b => formatHex 2 b) ++ [13]))))
      = some (some { id := id, extended := true, rtr := false, error := false,
                     dlc := data.length, data := data, timestamp := none }, ts) := by
  have hA : (formatHex 8 id).length = 8 :=
    formatHex_length (by norm_num) (lt_trans hid (by norm_num))
  have hDH : (data.flatMap (fun b => formatHex 2 b)).length = 2 * data.length :=
    length_dataHex data hdata
  set L := data.length with hL
  set DH := data.flatMap (fun b => formatHex 2 b) with hDHdef
  set T := formatHex 8 id ++ ([48 + L] ++ (DH ++ [13])) with hT
  have hTlen : T.length = 10 + 2 * L := by
    rw [hT]
    simp only [List.length_append, List.length_cons, List.length_nil, hA, hDH]
    omega
  have hsplit9 : 84 :: T = (84 :: formatHex 8 id) ++ ([48 + L] ++ (DH ++ [13])) := by
    rw [hT]
    simp [List.cons_append, List.append_assoc]
  have hget9 : (84 :: T).getD 9 0 = 48 + L := by
    rw [hsplit9, List.getD_append_right _ _ _ _ (by simp [hA])]
    simp [hA]
  have hslice : sliceRange (84 :: T) 1 9 = formatHex 8 id := by
    rw [sliceRange]
    simp only [List.drop_succ_cons, List.drop_zero, hT]
    rw [show (9 - 1 : ℕ) = (formatHex 8 id).length from by omega]
    exact List.take_left _ _
  have hsplit10 : 84 :: T = (84 :: (formatHex 8 id ++ [48 + L])) ++ (DH ++ [13]) := by
    rw [hT]
    simp [List.cons_append, List.append_assoc]
  have hdrop10 : (84 :: T).drop 10 = DH ++ [13] := by
    rw [hsplit10]
    rw [show (10 : ℕ) = (84 :: (formatHex 8 id ++ [48 + L])).length from by simp [hA]]
    exact List.drop_left _ _
  have hLen11 : (84 :: T).length = 11 + 2 * L := by
    simp only [List.length_cons, hTlen]
    omega
  have hc1 : (1 < (11 + 2 * L)) = True := eq_true (by omega)
  have hc9 : ((11 + 2 * L) ≤ 9) = False := eq_false (by omega)
  have hts : ((11 + 2 * L) = 10 + L * 2 + 8 + 1) = False := eq_false (by omega)
  have hc10 : ((11 + 2 * L) < 10) = False := eq_false (by omega)
  have hguard : ((11 + 2 * L) < 10 + L * 2) = False := eq_false (by omega)
  have hne : ((84 : ℕ) = 116) = False := by norm_num
  have hdigit : digit10 (48 + L) = some L := digit10_add48 (by omega)
  have hpairs : parseDataPairs (DH ++ [13]) L = some data :=
    parseDataPairs_roundtrip data [13] hdata
  have hid' : id ≤ 0x1FFFFFFF := by omega
  have hldlc : lenToDlc data.length = some data.length := by
    rw [lenToDlc, if_pos hlen]
  have hnew : CanFrame.new_eff id data =
      some { id := id, extended := true, rtr := false, error := false,
             dlc := data.length, data := data, timestamp := none } := by
    simp only [CanFrame.new_eff, hldlc]
    rw [if_pos hid']
  have hhex : parseRadix16 (2 ^ 32) (formatHex 8 id) = some id :=
    parseRadix16_formatHex (2 ^ 32) 8 id (by norm_num) (lt_trans hid (by norm_num))
  simp only [parse_slcan_line_bytes, hLen11, hc1, hc9, hts, hc10, hguard, hne, hdigit,
    hget9, hslice, hdrop10, parse_hex_u32, hhex, ite_true, ite_false,
    eq_self_iff_true, decide_False, Bool.false_eq_true, false_and,
    parse_slcan_frame_tail, hpairs, hnew, CanFrame.set_timestamp]

lemma toDecDigits_single {n : ℕ} (h : n < 10) : toDecDigits n = [48 + n] := by
  rw [toDecDigits, toDecDigitsAux, if_pos h]

/-- C5 (amended): the SLCAN round-trip holds for classical data frames:
for every frame `f` that is neither remote nor an error frame, carries no
timestamp, has at most 8 data bytes (each a byte value) with a consistent
DLC, and a standard or extended identifier in range, parsing the line
produced by the TX encoder yields `f` again and leaves the timestamp high
word unchanged. -/
theorem c5_slcan_roundtrip (ts : ℕ) (f : CanFrame)
    (hrtr : f.rtr = false) (herr : f.error = false) (htstamp : f.timestamp = none)
    (hlen : f.data.length ≤ 8) (hdlc : f.dlc = f.data.length)
    (hdata : ∀ b ∈ f.data, b < 256)
    (hid : if f.extended then f.id < 2 ^ 29 else f.id < 2 ^ 11) :
    parse_slcan_line_bytes ts (slcan_send_frame f) = some (some f, ts) := by
  obtain ⟨id, ext, rtr, err, dlc, data, tstamp⟩ := f
  simp only at hrtr herr htstamp hdlc hlen hdata hid
  subst hrtr
  subst herr
  subst htstamp
  subst hdlc
  have hdec : toDecDigits data.length = [48 + data.length] :=
    toDecDigits_single (by omega)
  cases ext with
  | false =>
    simp only [if_false, Bool.false_eq_true] at hid
    have hsend : slcan_send_frame
        { id := id, extended := false, rtr := false, error := false,
          dlc := data.length, data := data, timestamp := none }
        = 116 :: (formatHex 3 id ++ ([48 + data.length] ++
            (data.flatMap (fun b => formatHex 2 b) ++ [13]))) := by
      simp only [slcan_send_frame, Bool.false_eq_true, if_false, hdec]
      simp [List.cons_append, List.append_assoc]
    rw [hsend]
    exact slcan_roundtrip_std ts id data hid hlen hdata
  | true =>
    simp only [if_true] at hid
    have hsend : slcan_send_frame
        { id := id, extended := true, rtr := false, error := false,
          dlc := data.length, data := data, timestamp := none }
        = 84 :: (formatHex 8 id ++ ([48 + data.length] ++
            (data.flatMap (fun b => formatHex 2 b) ++ [13]))) := by
      simp only [slcan_send_frame, if_true, hdec]
      simp [List.cons_append, List.append_assoc]
    rw [hsend]
    exact slcan_roundtrip_ext ts id data hid hlen hdata

/-- Witness for the amended C5 theorem, at the S4 frame
`{id 0x1F, standard, data [0x11, 0x22]}`. -/
theorem c5_slcan_roundtrip_witness :
    (s4Frame.rtr = false ∧ s4Frame.error = false ∧ s4Frame.timestamp = none ∧
     s4Frame.data.length ≤ 8 ∧ s4Frame.dlc = s4Frame.data.length ∧
     (∀ b ∈ s4Frame.data, b < 256) ∧
     (if s4Frame.extended then s4Frame.id < 2 ^ 29 else s4Frame.id < 2 ^ 11)) ∧
    parse_slcan_line_bytes 0 (slcan_send_frame s4Frame) = some (some s4Frame, 0) :=
  ⟨by decide,
   c5_slcan_roundtrip 0 s4Frame (by decide) (by decide) (by decide) (by decide)
     (by decide) (by decide) (by decide)⟩
